import Mathlib

/-!
Verification development for the node-graph mutation and traversal engine of
`node_graph_message_handler.rs` (Graphite editor fork).

The data model and the message handlers are shallowly embedded below.  Code of
the repository that lives outside the analysed file (the `graph_craft` network
primitives and the node-type registry) is modelled from the specification; every
such definition carries a doc comment starting with `Modelled from the spec:`.
-/

namespace NodeGraph

/-- Opaque node identifier (`NodeId` newtype over `u64` in the source). -/
abbrev NodeId := Nat

/-- Opaque literal payload carried by a `Value` input (`TaggedValue` in the
source); its structure is irrelevant to the graph algorithms. -/
abbrev TaggedValue := Nat

/-- `NodeInput` from `graph_craft`, as described by the spec's data model:
`Value {data, exposed}`, `NodeConnection {sourceNodeId, outputIndex, lambda}`,
and the boundary placeholder (`NodeInput::Network`). -/
inductive NodeInput where
  | value (tagged_value : TaggedValue) (exposed : Bool)
  | node (node_id : NodeId) (output_index : Nat) (lambda : Bool)
  | network
deriving DecidableEq, Repr

/-- `DocumentNode`: type-name, display alias, ordered inputs (index 0 is the
primary input), layer/visibility/lock flags and an integer grid position.  The
implementation reference (primitive vs. nested network) is irrelevant to the
claims and omitted; all claims address the root network. -/
structure DocumentNode where
  name : String
  «alias» : String := ""
  inputs : List NodeInput := []
  is_layer : Bool := false
  display_as_layer : Bool := false
  has_primary_output : Bool := true
  visible : Bool := true
  locked : Bool := false
  position : Int × Int := (0, 0)
deriving DecidableEq, Repr

/-- `NodeOutput`: a reference to one output of a node (used in `exports`). -/
structure NodeOutput where
  node_id : NodeId
  node_output_index : Nat
deriving DecidableEq, Repr

/-- `NodeNetwork`: node arena (association list keyed by `NodeId`, standing in
for the source's `HashMap` with a fixed iteration order), import boundary,
current exports and the optional preview stash `previous_outputs`. -/
structure NodeNetwork where
  nodes : List (NodeId × DocumentNode) := []
  imports : List NodeId := []
  exports : List NodeOutput := []
  previous_outputs : Option (List NodeOutput) := none
deriving DecidableEq, Repr

/-- Arena lookup (`network.nodes.get(&id)`). -/
def getNode (n : NodeNetwork) (id : NodeId) : Option DocumentNode :=
  (n.nodes.find? (fun p => p.1 = id)).map (·.2)

/-- Modelled from the spec: `outputs_contain` of `graph_craft` — membership of
`id` among the current export nodes. -/
def outputs_contain (n : NodeNetwork) (id : NodeId) : Bool :=
  n.exports.any (fun o => o.node_id = id)

/-- Modelled from the spec: `original_outputs` of `graph_craft` — the stashed
exports while a preview override is active, otherwise the current exports. -/
def original_outputs (n : NodeNetwork) : List NodeOutput :=
  n.previous_outputs.getD n.exports

/-- Modelled from the spec: `original_outputs_contain` of `graph_craft`. -/
def original_outputs_contain (n : NodeNetwork) (id : NodeId) : Bool :=
  (original_outputs n).any (fun o => o.node_id = id)

/-- The connection source, if this input is a `NodeConnection`. -/
def NodeInput.asNode : NodeInput → Option NodeId
  | .node id _ _ => some id
  | _ => none

/-- Does this input connect to the output of node `uid`? -/
def NodeInput.connectsTo (uid : NodeId) : NodeInput → Bool
  | .node id _ _ => id = uid
  | _ => false

/-- Modelled from the spec: `collect_outwards_links` of `graph_craft` — for a
node `uid`, the consumers that reference it, one entry per referencing input,
in arena order. -/
def outward_links (n : NodeNetwork) (uid : NodeId) : List NodeId :=
  n.nodes.flatMap (fun p => (p.2.inputs.filter (NodeInput.connectsTo uid)).map (fun _ => p.1))

/-- The upstream edges leaving a node backwards: all `NodeConnection` sources,
or only the primary (index-0) one when `only_primary` is set. -/
def nodeInputIds (node : DocumentNode) (only_primary : Bool) : List NodeId :=
  ((if only_primary then node.inputs.take 1 else node.inputs).filterMap NodeInput.asNode)

/-- Modelled from the spec: worker for `upstream_flow_back_from_nodes` — a
finite sequence of the nodes reachable by following `NodeConnection` inputs
backward from the queue, each listed once (visited-set tracking), skipping ids
without a node.  Fuel-driven recursion; `upstream_flow` supplies enough fuel. -/
def upstream_flow_aux (n : NodeNetwork) (only_primary : Bool) :
    Nat → List NodeId → List NodeId → List NodeId
  | 0, _, _ => []
  | _ + 1, [], _ => []
  | fuel + 1, id :: queue, visited =>
    if visited.contains id then
      upstream_flow_aux n only_primary fuel queue visited
    else
      match getNode n id with
      | none => upstream_flow_aux n only_primary fuel queue visited
      | some node =>
        id :: upstream_flow_aux n only_primary fuel
          (queue ++ nodeInputIds node only_primary) (id :: visited)

/-- Fuel sufficient for `upstream_flow_aux`: one step per queue entry, where at
most `roots + Σ inputs` entries are ever enqueued (each node is expanded at most
once thanks to the visited set). -/
def flowFuel (n : NodeNetwork) (roots : List NodeId) : Nat :=
  roots.length + n.nodes.foldr (fun p a => p.2.inputs.length + 1 + a) 1

/-- Modelled from the spec: `upstream_flow_back_from_nodes(roots, only_primary)`
of `graph_craft` — the backward reachability walk, roots first. -/
def upstream_flow (n : NodeNetwork) (roots : List NodeId) (only_primary : Bool) :
    List NodeId :=
  upstream_flow_aux n only_primary (flowFuel n roots) roots []

/-- Modelled from the spec: `connected_to_output` of `graph_craft` — `id` is
found while walking the upstream flow from the network's current export
nodes. -/
def connected_to_output (n : NodeNetwork) (id : NodeId) : Bool :=
  (upstream_flow n (n.exports.map (·.node_id)) false).contains id

/-- Modelled from the spec: `is_node_upstream_of_another_by_primary_flow` of
`graph_craft` — `upstream` is reached by the primary-flow walk starting at
`downstream`. -/
def is_node_upstream_of_another_by_primary_flow
    (n : NodeNetwork) (downstream upstream : NodeId) : Bool :=
  (upstream_flow n [downstream] true).contains upstream

/-- Modelled from the spec: the external node-type registry, reduced to what the
analysed code consumes from it — the ordered list of default `Input`s for a type
name, or `none` when the name is not in the library. -/
abbrev Registry := String → Option (List NodeInput)

/-- Outcome of rewriting one node's input list during
`remove_references_from_network`: `panicked` models the out-of-bounds index
into the registry's default list (a Rust panic), `aborted` models the
`return false` on a type name missing from the registry. -/
inductive InputsResult where
  | panicked
  | aborted
  | ok (inputs : List NodeInput)
deriving DecidableEq, Repr

/-- Propagate a successful prefix input through `InputsResult`. -/
def InputsResult.push (i : NodeInput) : InputsResult → InputsResult
  | .panicked => .panicked
  | .aborted => .aborted
  | .ok rest => .ok (i :: rest)

/-- The inner loop of `remove_references_from_network` (lines 1023–1057) for one
surviving consumer: each input that is a `NodeConnection` to `deleting` is
spliced to `reconnect_to_input` when that is set and the input referenced output
index 0, otherwise reset to the registry default `Value` (forced exposed) — but
only when the registry default at that index is a `Value`; a missing registry
entry aborts the whole pass and a too-short default list is an index panic. -/
def rewrite_inputs (registry : Registry) (name : String)
    (reconnect_to_input : Option NodeInput) (deleting : NodeId) :
    Nat → List NodeInput → InputsResult
  | _, [] => .ok []
  | idx, input :: rest =>
    match input with
    | .node uid oidx _ =>
      if uid = deleting then
        match registry name with
        | none => .aborted
        | some defaults =>
          match defaults.get? idx with
          | none => .panicked
          | some (.value tv _) =>
            let newInput :=
              match reconnect_to_input with
              | some r => if oidx = 0 then r else NodeInput.value tv true
              | none => NodeInput.value tv true
            (rewrite_inputs registry name reconnect_to_input deleting (idx + 1) rest).push
              newInput
          | some _ =>
            (rewrite_inputs registry name reconnect_to_input deleting (idx + 1) rest).push
              input
      else
        (rewrite_inputs registry name reconnect_to_input deleting (idx + 1) rest).push input
    | _ => (rewrite_inputs registry name reconnect_to_input deleting (idx + 1) rest).push input

/-- The outer loop of `remove_references_from_network` over the arena: the
deleting node itself is skipped; an `aborted` consumer makes the pass return
`false` immediately, keeping the rewrites already applied to earlier entries
(no rollback); `none` is a panic. -/
def remove_references_aux (registry : Registry) (reconnect_to_input : Option NodeInput)
    (deleting : NodeId) :
    List (NodeId × DocumentNode) → Option (Bool × List (NodeId × DocumentNode))
  | [] => some (true, [])
  | (id, node) :: rest =>
    if id = deleting then
      (remove_references_aux registry reconnect_to_input deleting rest).map
        (fun br => (br.1, (id, node) :: br.2))
    else
      match rewrite_inputs registry node.name reconnect_to_input deleting 0 node.inputs with
      | .panicked => none
      | .aborted => some (false, (id, node) :: rest)
      | .ok inputs' =>
        (remove_references_aux registry reconnect_to_input deleting rest).map
          (fun br => (br.1, (id, { node with inputs := inputs' }) :: br.2))

/-- The reconnect source of `remove_references_from_network` (lines 1007–1017):
the deleting node's primary input, whenever `reconnect` is set and that input
is a `NodeConnection`. -/
def reconnect_input (network : NodeNetwork) (deleting_node_id : NodeId)
    (reconnect : Bool) : Option NodeInput :=
  if reconnect then
    match getNode network deleting_node_id with
    | some node =>
      match node.inputs.head? with
      | some (.node a b c) => some (.node a b c)
      | _ => none
    | none => none
  else none

/-- `remove_references_from_network` (lines 997–1060): boundary guards, the
optional reconnect source, then the rewrite pass over all surviving nodes. -/
def remove_references_from_network (registry : Registry) (network : NodeNetwork)
    (deleting_node_id : NodeId) (reconnect : Bool) : Option (Bool × NodeNetwork) :=
  if network.imports.contains deleting_node_id then some (false, network)
  else if outputs_contain network deleting_node_id then some (false, network)
  else
    (remove_references_aux registry (reconnect_input network deleting_node_id reconnect)
        deleting_node_id network.nodes).map
      (fun br => (br.1, { network with nodes := br.2 }))

/-- `remove_node` (lines 1062–1074): run the reference rewrite; on `false` the
node is kept (note that a partial rewrite is kept too), on `true` it is removed
from the arena and from the selection set. -/
def remove_node (registry : Registry) (network : NodeNetwork) (selected : List NodeId)
    (node_id : NodeId) (reconnect : Bool) : Option (Bool × NodeNetwork × List NodeId) :=
  match remove_references_from_network registry network node_id reconnect with
  | none => none
  | some (false, network') => some (false, network', selected)
  | some (true, network') =>
    some (true, { network' with nodes := network'.nodes.filter (fun p => p.1 ≠ node_id) },
      selected.filter (fun id => id ≠ node_id))

/-- Insert into the `delete_nodes` set, modelled as a duplicate-free list in
insertion order. -/
def insertId (l : List NodeId) (id : NodeId) : List NodeId :=
  if l.contains id then l else l ++ [id]

/-- One expansion of the forward walk of the sole-dependent test
(lines 161–181): scan the outward links of `current`; a consumer among the
original outputs records "cannot delete"; a consumer outside the delete-set is
pushed; a consumer already in the delete-set triggers the sibling continuation,
pushing every id scheduled for deletion whose primary input is `current`
(`none` models the `expect` panic when such an id has no node). -/
def walk_step (net : NodeNetwork) (delete_nodes node_ids : List NodeId)
    (current : NodeId) : Option (Bool × List NodeId) :=
  (outward_links net current).foldl
    (fun acc d =>
      acc.bind (fun sp =>
        if original_outputs_contain net d then some (true, sp.2)
        else if delete_nodes.contains d then
          (node_ids.foldl
            (fun acc2 did =>
              acc2.bind (fun ps =>
                match getNode net did with
                | none => none
                | some dn =>
                  match dn.inputs.head? with
                  | some (.node nid _ _) => if nid = current then some (ps ++ [did]) else some ps
                  | _ => some ps))
            (some sp.2)).map (fun ps => (sp.1, ps))
        else some (sp.1, sp.2 ++ [d])))
    (some (false, []))

/-- The fuel-driven stack walk of the sole-dependent test (lines 157–183).  The
source has no visited set and no iteration limit (its own TODO notes the risk of
an infinite loop), so the recursion is given explicit fuel; `none` means the
fuel ran out — i.e. the source loop would still be running — or a panic. -/
def sole_walk (net : NodeNetwork) (delete_nodes node_ids : List NodeId) :
    Nat → List NodeId → Bool → Option Bool
  | _, [], can_delete => some can_delete
  | 0, _ :: _, _ => none
  | fuel + 1, current :: rest, can_delete =>
    match walk_step net delete_nodes node_ids current with
    | none => none
    | some (saw, pushes) =>
      sole_walk net delete_nodes node_ids fuel (pushes.reverse ++ rest) (can_delete && !saw)

/-- One iteration of the delete-set seeding of `NodeGraphMessage::DeleteNodes`
(lines 145–189): insert the requested id; with `reconnect`, if the id's
secondary input is a `NodeConnection` to a child, test every node of the
backward flow from the child with `sole_walk` and insert those whose every
forward path stays away from the original outputs (`none` is the `expect`
panic on a requested id with no node, or an unfinished walk). -/
def seed_step (fuel : Nat) (net : NodeNetwork) (node_ids : List NodeId) (reconnect : Bool)
    (del : List NodeId) (id : NodeId) : Option (List NodeId) :=
  let del := insertId del id
  if reconnect then
    match getNode net id with
    | none => none
    | some node =>
      match node.inputs.get? 1 with
      | some (.node child _ _) =>
        (upstream_flow net [child] false).foldl
          (fun acc2 up =>
            acc2.bind (fun del2 =>
              match sole_walk net del2 node_ids fuel [up] true with
              | none => none
              | some true => some (insertId del2 up)
              | some false => some del2))
          (some del)
      | _ => some del
  else some del

/-- The delete-set seeding loop of `NodeGraphMessage::DeleteNodes`
(lines 143–190). -/
def delete_nodes_seed (fuel : Nat) (net : NodeNetwork) (node_ids : List NodeId)
    (reconnect : Bool) : Option (List NodeId) :=
  node_ids.foldl
    (fun acc id => acc.bind (fun del => seed_step fuel net node_ids reconnect del id))
    (some [])

/-- One iteration of the removal loop of `NodeGraphMessage::DeleteNodes`
(lines 192–208): look the node up (`expect` panic is `none`) and hand it to
`remove_node`; the layer-metadata detach addresses an external collaborator and
has no effect on the network. -/
def run_step (registry : Registry) (reconnect : Bool)
    (ns : NodeNetwork × List NodeId) (did : NodeId) : Option (NodeNetwork × List NodeId) :=
  match getNode ns.1 did with
  | none => none
  | some _ =>
    (remove_node registry ns.1 ns.2 did reconnect).map (fun r => (r.2.1, r.2.2))

/-- `NodeGraphMessage::DeleteNodes` in full: seed the delete-set, then remove
its members in insertion order.  Returns the surviving network and
selection. -/
def delete_nodes_run (registry : Registry) (fuel : Nat) (net : NodeNetwork)
    (selected : List NodeId) (node_ids : List NodeId) (reconnect : Bool) :
    Option (NodeNetwork × List NodeId) :=
  (delete_nodes_seed fuel net node_ids reconnect).bind (fun del =>
    del.foldl
      (fun acc did => acc.bind (fun ns => run_step registry reconnect ns did))
      (some (net, selected)))

/-- `NodeGraphMessage::TogglePreviewImpl` (lines 672–688): turning preview on
stashes the exports (if not already stashed) and overwrites `exports[0]`; the
source's `network.exports[0] = …` is a Vec index assignment, so an empty export
list is a panic (`none`).  Turning preview off restores the stash; with no stash
the toggle is a no-op. -/
def toggle_preview_impl (net : NodeNetwork) (node_id : NodeId) : Option NodeNetwork :=
  if !outputs_contain net node_id then
    if net.exports.isEmpty then none
    else
      some { net with
        previous_outputs := some (net.previous_outputs.getD net.exports),
        exports := net.exports.set 0 ⟨node_id, 0⟩ }
  else
    match net.previous_outputs with
    | some outputs => some { net with exports := outputs, previous_outputs := none }
    | none => some net

/-- Grid-position translation. -/
def addPos (p q : Int × Int) : Int × Int := (p.1 + q.1, p.2 + q.2)

/-- The collision condition of the paste shift loop (lines 401–404): every
pasted node's shifted position coincides with some existing node's position. -/
def paste_all_collide (net : NodeNetwork) (data : List (NodeId × DocumentNode))
    (shift : Int × Int) : Bool :=
  data.all (fun p =>
    net.nodes.any (fun q => addPos p.2.position shift = q.2.position))

/-- The paste shift loop of `NodeGraphMessage::PasteNodes` (lines 399–406):
starting from zero, add `(2, 2)` while *all* pasted nodes collide.  Fuel-driven;
`none` means the bound was exhausted. -/
def paste_shift_loop (net : NodeNetwork) (data : List (NodeId × DocumentNode)) :
    Nat → (Int × Int) → Option (Int × Int)
  | 0, _ => none
  | fuel + 1, shift =>
    if paste_all_collide net data shift then
      paste_shift_loop net data fuel (addPos shift (2, 2))
    else some shift

/-- Modelled from the spec: `DocumentNode::map_ids` of `graph_craft` — rewrite
`NodeConnection` inputs through the id remap; a reference outside the remap is
replaced by the registry's declared default for that index (kept unchanged when
the registry has none to offer). -/
def map_ids (registry : Registry) (new_ids : List (NodeId × NodeId))
    (node : DocumentNode) : DocumentNode :=
  { node with
    inputs := node.inputs.enum.map (fun (idx, input) =>
      match input with
      | .node uid oi lam =>
        match (new_ids.find? (fun p => p.1 = uid)).map (·.2) with
        | some nid => .node nid oi lam
        | none =>
          match (registry node.name).bind (fun ds => ds.get? idx) with
          | some d => d
          | none => .node uid oi lam
      | other => other) }

/-- `NodeGraphMessage::PasteNodes` (lines 381–425): a malformed payload
(`parsed = none`) and an empty payload both return before any mutation; else
the cluster is shifted clear by `paste_shift_loop`, remapped to fresh ids
(`new_id`) and inserted.  Returns the network and the inserted ids. -/
def paste_nodes (registry : Registry) (fuel : Nat) (net : NodeNetwork)
    (parsed : Option (List (NodeId × DocumentNode))) (new_id : NodeId → NodeId) :
    Option (NodeNetwork × List NodeId) :=
  match parsed with
  | none => some (net, [])
  | some [] => some (net, [])
  | some data =>
    match paste_shift_loop net data fuel (0, 0) with
    | none => none
    | some shift =>
      let new_ids := data.map (fun p => (p.1, new_id p.1))
      let inserted := data.map (fun op =>
        (new_id op.1,
         map_ids registry new_ids { op.2 with position := addPos op.2.position shift }))
      some ({ net with nodes := net.nodes ++ inserted }, new_ids.map (·.2))

/-- `required_shift` (lines 503–513): the deficit below the 8-unit spacing, but
`0` when the right node lies strictly left of the left node or either node is
missing. -/
def required_shift (net : NodeNetwork) (left right : NodeId) : Int :=
  match getNode net left, getNode net right with
  | some l, some r =>
    if r.position.1 < l.position.1 then 0
    else max (8 - (r.position.1 - l.position.1)) 0
  | _, _ => 0

/-- `shift_node` (lines 514–518): move one node's x-position. -/
def shift_node_by (net : NodeNetwork) (id : NodeId) (s : Int) : NodeNetwork :=
  { net with nodes := net.nodes.map (fun p =>
      if p.1 = id then (p.1, { p.2 with position := (p.2.position.1 + s, p.2.position.2) })
      else p) }

/-- The downstream-closure walk of one descendant (lines 536–540): pop, shift by
the fixed deficit, push the outward links (computed from the pre-move structure
`links`).  No visited set, so a node reachable along several paths is shifted
once per visit; fuel-driven, returning the visit list. -/
def shift_walk (links : NodeId → List NodeId) (s : Int) :
    Nat → List NodeId → NodeNetwork → Option (NodeNetwork × List NodeId)
  | _, [], net => some (net, [])
  | 0, _ :: _, _ => none
  | fuel + 1, id :: stack, net =>
    (shift_walk links s fuel ((links id).reverse ++ stack) (shift_node_by net id s)).map
      (fun r => (r.1, id :: r.2))

/-- The phase-2 loop of `NodeGraphMessage::ShiftNode` (lines 533–541): for each
direct descendant in turn, compute its deficit against the node's current
position and push its whole downstream closure right. -/
def shift_descendants (links : NodeId → List NodeId) (node_id : NodeId) (fuel : Nat) :
    List NodeId → NodeNetwork → Option (NodeNetwork × List NodeId)
  | [], net => some (net, [])
  | descendant :: ds, net =>
    (shift_walk links (required_shift net node_id descendant) fuel [descendant] net).bind
      (fun r =>
        (shift_descendants links node_id fuel ds r.1).map (fun r2 => (r2.1, r.2 ++ r2.2)))

/-- `NodeGraphMessage::ShiftNode` (lines 496–544): first the node itself is
pushed right once per upstream input deficit, then each direct downstream
descendant's whole closure is pushed right by that descendant's deficit.
Returns the network and the concatenated phase-2 visit list. -/
def shift_node_run (fuel : Nat) (net : NodeNetwork) (node_id : NodeId) :
    Option (NodeNetwork × List NodeId) :=
  shift_descendants (outward_links net) node_id fuel (outward_links net node_id)
    (((((getNode net node_id).map (fun n => n.inputs)).getD []).filterMap
        NodeInput.asNode).foldl
      (fun n input_node => shift_node_by n node_id (required_shift n input_node node_id)) net)

/-- Exposed-`Value` count of a node (lines 322–326). -/
def exposed_value_count (node : DocumentNode) : Nat :=
  (node.inputs.filter (fun i => match i with | .value _ exposed => exposed | _ => false)).length

/-- `NodeConnection` input count of a node (line 350). -/
def node_input_count (node : DocumentNode) : Nat :=
  (node.inputs.filter (fun i => match i with | .node _ _ _ => true | _ => false)).length

/-- Replace one input of one node (the effect of the queued
`NodeGraphMessage::SetNodeInput`). -/
def set_node_input (net : NodeNetwork) (node_id : NodeId) (input_index : Nat)
    (input : NodeInput) : NodeNetwork :=
  { net with nodes := net.nodes.map (fun p =>
      if p.1 = node_id then (p.1, { p.2 with inputs := p.2.inputs.set input_index input })
      else p) }

/-- `NodeGraphMessage::ExposeInput` (lines 309–362).  A missing network or node
returns with no mutation; `node.inputs[input_index]` is an unchecked Vec index,
so an out-of-range index is a panic (`none`), as is a registry default list
shorter than the index.  On success the rewritten input is applied and
`display_as_layer` is forced off when the layer shape (connection inputs +
exposed values = 2) is broken. -/
def expose_input (registry : Registry) (net : NodeNetwork) (node_id : NodeId)
    (input_index : Nat) (new_exposed : Bool) : Option NodeNetwork :=
  match getNode net node_id with
  | none => some net
  | some node =>
    match node.inputs.get? input_index with
    | none => none
    | some inp =>
      let count0 : Int := exposed_value_count node
      let step : Option (NodeInput × Int) :=
        match inp with
        | .value tv _ =>
          some (.value tv new_exposed, if new_exposed then count0 + 1 else count0 - 1)
        | other =>
          match registry node.name with
          | none => some (other, count0)
          | some defaults =>
            match defaults.get? input_index with
            | none => none
            | some (.value tv _) =>
              some (.value tv new_exposed, if new_exposed then count0 + 1 else count0 - 1)
            | some _ => some (other, count0)
      step.map (fun ic =>
        let toggle_off :=
          node.has_primary_output && ((node_input_count node : Int) + ic.2 ≠ 2)
        let net' :=
          if toggle_off then
            { net with nodes := net.nodes.map (fun p =>
                if p.1 = node_id then (p.1, { p.2 with display_as_layer := false }) else p) }
          else net
        set_node_input net' node_id input_index ic.1)

/-- Is `id` a node of the network flagged `is_layer`? -/
def isLayerId (net : NodeNetwork) (id : NodeId) : Bool :=
  match getNode net id with
  | some node => node.is_layer
  | none => false

/-- The `take_while` of `collate_properties` (lines 826–831): keep the first
walked node unconditionally, then stop at the first further layer node. -/
def take_until_second_layer (net : NodeNetwork) : List NodeId → List NodeId
  | [] => []
  | x :: xs => x :: xs.takeWhile (fun id => !isLayerId net id)

/-- `collate_properties` (lines 785–836), reduced to the list of node ids whose
properties sections are produced: selected ids found in the network are split
into layers and non-layer nodes; zero layers shows each node, one layer shows
the primary-flow upstream chain up to the next layer provided every selected
node is upstream of the layer, more than one layer shows nothing. -/
def collate_properties (net : NodeNetwork) (selected : List NodeId) : List NodeId :=
  match (selected.filter (fun id => (getNode net id).isSome)).filter
      (fun id => isLayerId net id) with
  | [] =>
    (selected.filter (fun id => (getNode net id).isSome)).filter (fun id => !isLayerId net id)
  | [layer] =>
    if ((selected.filter (fun id => (getNode net id).isSome)).filter
          (fun id => !isLayerId net id)).any
        (fun id => !is_node_upstream_of_another_by_primary_flow net layer id) then []
    else take_until_second_layer net (upstream_flow net [layer] true)
  | _ => []

/-- The claim's reading of the properties-panel walk (spec §4.5, quoted by the
claim): identical to `collate_properties` except that the one-layer branch walks
`upstreamFlow({layer}, primaryOnly=false)`, i.e. follows all connection edges.
Stated from the spec's words, for comparison with the source's behaviour. -/
def collate_properties_claimed (net : NodeNetwork) (selected : List NodeId) : List NodeId :=
  match (selected.filter (fun id => (getNode net id).isSome)).filter
      (fun id => isLayerId net id) with
  | [] =>
    (selected.filter (fun id => (getNode net id).isSome)).filter (fun id => !isLayerId net id)
  | [layer] =>
    if ((selected.filter (fun id => (getNode net id).isSome)).filter
          (fun id => !isLayerId net id)).any
        (fun id => !is_node_upstream_of_another_by_primary_flow net layer id) then []
    else take_until_second_layer net (upstream_flow net [layer] false)
  | _ => []

/-- The claim's sole-dependent criterion (C2, quoting spec §8): an export node
is reachable from `start` by a forward path whose steps go through surviving
nodes only — each step moves to an outward-link consumer outside the delete-set,
or directly reports an original-output consumer.  Bounded breadth-first search
with visited tracking; stated from the spec's words for comparison with the
source's walk. -/
def reaches_export_through_surviving (net : NodeNetwork) (delete_nodes : List NodeId) :
    Nat → List NodeId → List NodeId → Bool
  | 0, _, _ => false
  | _ + 1, [], _ => false
  | fuel + 1, id :: queue, visited =>
    if visited.contains id then
      reaches_export_through_surviving net delete_nodes fuel queue visited
    else if (outward_links net id).any (fun d => original_outputs_contain net d) then true
    else
      reaches_export_through_surviving net delete_nodes fuel
        (queue ++ (outward_links net id).filter (fun d => !delete_nodes.contains d))
        (id :: visited)

/-- The claim-side predicate of C2 on one candidate node: no forward path from
`start` reaches a current export through surviving nodes. -/
def spec_sole_dependent (net : NodeNetwork) (delete_nodes : List NodeId)
    (start : NodeId) : Bool :=
  !reaches_export_through_surviving net delete_nodes
    (flowFuel net [start]) [start] []

/-! ### Concrete instances

Small networks exercising the algorithms; `testRegistry` is a registry with one
ordinary type (`Value` defaults throughout) and one type whose defaults are not
`Value` inputs, both allowed by the registry interface of spec §6. -/

/-- A concrete registry instance: `TestNode` has three detached `Value`
defaults, `OddNode` has a single non-`Value` (boundary placeholder) default,
and any other name is missing from the library. -/
def testRegistry : Registry := fun name =>
  if name = "TestNode" then some [.value 0 false, .value 0 false, .value 0 false]
  else if name = "OddNode" then some [.network]
  else none

/-- Linear chain of spec §8: exports ← A(1) ← B(2) ← C(3). -/
def chainNet : NodeNetwork :=
  { nodes := [(1, { name := "TestNode", inputs := [.node 2 0 false] }),
              (2, { name := "TestNode", inputs := [.node 3 0 false] }),
              (3, { name := "TestNode", inputs := [.value 7 false] })],
    exports := [⟨1, 0⟩] }

/-- The chain after `Delete({B}, reconnect = true)`: A bridged to C. -/
def chainNetAfter : NodeNetwork :=
  { nodes := [(1, { name := "TestNode", inputs := [.node 3 0 false] }),
              (3, { name := "TestNode", inputs := [.value 7 false] })],
    exports := [⟨1, 0⟩] }

/-- A deleted node 1 (primary input wired to 3) whose consumer 2 has a
non-`Value` registry default at the referencing index. -/
def oddNet : NodeNetwork :=
  { nodes := [(1, { name := "TestNode", inputs := [.node 3 0 false] }),
              (2, { name := "OddNode", inputs := [.node 1 0 false] }),
              (3, { name := "TestNode", inputs := [.value 1 false] })] }

/-- C2's network: N(1) feeds C(2) and B(3); B (to be deleted) has child C and
feeds the exported E(4).  Every forward path from N to the export runs through
the deleted B. -/
def c2Net : NodeNetwork :=
  { nodes := [(1, { name := "TestNode", inputs := [] }),
              (2, { name := "TestNode", inputs := [.node 1 0 false] }),
              (3, { name := "TestNode", inputs := [.node 1 0 false, .node 2 0 false] }),
              (4, { name := "TestNode", inputs := [.node 3 0 false] })],
    exports := [⟨4, 0⟩] }

/-- A network whose export list is empty. -/
def emptyExportsNet : NodeNetwork := { nodes := [] }

/-- Two unconnected nodes, node 1 exported: preview round-trip instance. -/
def prevNet : NodeNetwork :=
  { nodes := [(1, { name := "TestNode" }), (2, { name := "TestNode" })],
    exports := [⟨1, 0⟩] }

/-- Paste target with one existing node at the origin. -/
def pasteNet : NodeNetwork := { nodes := [(9, { name := "TestNode", position := (0, 0) })] }

/-- Paste payload with one node colliding with the existing node and one node
already clear. -/
def pasteData : List (NodeId × DocumentNode) :=
  [(1, { name := "TestNode", position := (0, 0) }),
   (2, { name := "TestNode", position := (5, 5) })]

/-- A downstream neighbour (2) strictly left of the shifted node (1). -/
def leftNet : NodeNetwork :=
  { nodes := [(1, { name := "TestNode", position := (10, 0) }),
              (2, { name := "TestNode", inputs := [.node 1 0 false], position := (0, 0) })] }

/-- A diamond below the shifted node 1: 2 fans out to 3 and 4, both feeding 5,
so the closure walk visits 5 twice. -/
def diamondNet : NodeNetwork :=
  { nodes := [(1, { name := "TestNode", position := (0, 0) }),
              (2, { name := "TestNode", inputs := [.node 1 0 false], position := (1, 0) }),
              (3, { name := "TestNode", inputs := [.node 2 0 false], position := (9, 0) }),
              (4, { name := "TestNode", inputs := [.node 2 0 false], position := (9, 0) }),
              (5, { name := "TestNode", inputs := [.node 3 0 false, .node 4 0 false],
                    position := (17, 0) })] }

/-- A single right-side downstream neighbour for the spacing witness. -/
def spacingNet : NodeNetwork :=
  { nodes := [(1, { name := "TestNode", position := (0, 0) }),
              (2, { name := "TestNode", inputs := [.node 1 0 false], position := (3, 0) })] }

/-- Layer 1 with a primary connection to 2 and a secondary connection to 3. -/
def layerNet : NodeNetwork :=
  { nodes := [(1, { name := "TestNode", inputs := [.node 2 0 false, .node 3 0 false],
                    is_layer := true }),
              (2, { name := "TestNode", inputs := [] }),
              (3, { name := "TestNode", inputs := [] })] }

/-- Two selected layer nodes. -/
def twoLayerNet : NodeNetwork :=
  { nodes := [(1, { name := "TestNode", is_layer := true }),
              (2, { name := "TestNode", is_layer := true })] }

/-- Import node 1, plain node 2 and exported node 3 consuming it. -/
def boundaryNet : NodeNetwork :=
  { nodes := [(1, { name := "TestNode", inputs := [] }),
              (2, { name := "TestNode", inputs := [.value 0 false] }),
              (3, { name := "TestNode", inputs := [.node 2 0 false] })],
    imports := [1], exports := [⟨3, 0⟩] }

/-- A two-node cycle 1 ↔ 2 under the deleted node 10 (child input to 1): the
sole-dependent walk bounces between 1 and 2 forever. -/
def cycNet : NodeNetwork :=
  { nodes := [(10, { name := "TestNode", inputs := [.value 0 false, .node 1 0 false] }),
              (1, { name := "TestNode", inputs := [.node 2 0 false] }),
              (2, { name := "TestNode", inputs := [.node 1 0 false] })] }

/-- A single node with one (unexposed) value input. -/
def exposeNet : NodeNetwork :=
  { nodes := [(1, { name := "TestNode", inputs := [.value 0 false] })] }

/-- Node 1 about to be deleted; consumer 2 resolvable, consumer 3 unresolvable,
so the rewrite pass aborts after mutating 2. -/
def c10Net : NodeNetwork :=
  { nodes := [(1, { name := "TestNode", inputs := [.value 0 false] }),
              (2, { name := "TestNode", inputs := [.node 1 0 false] }),
              (3, { name := "Unknown", inputs := [.node 1 0 false] })] }

/-! ### Concrete counterexamples and code evaluations -/

/-- Claim C1, counterexample: in `oddNet` the node being deleted (1) has a
`NodeConnection` primary input (to 3), `reconnect` is set and the surviving
consumer (2) references output 0 of node 1 — yet after the rewrite pass the
consumer's input is left unchanged instead of being replaced by that primary
connection, because the registry default for the consumer's input index is not
a `Value`. -/
theorem C1_counterexample :
    (remove_references_from_network testRegistry oddNet 1 true).map
        (fun r => (r.1, (getNode r.2 2).map (fun n => n.inputs)))
      = some (true, some [NodeInput.node 1 0 false])
    ∧ (getNode oddNet 1).map (fun n => n.inputs.head?) = some (some (.node 3 0 false))
    ∧ [NodeInput.node 1 0 false] ≠ [NodeInput.node 3 0 false] := by decide

/-- Claim C2, counterexample: deleting B(3) in `c2Net`, node N(1) is reachable
backward from B's secondary-input child (2) and has no forward path to the
export through surviving nodes (the final delete-set being `[3, 2]`), yet the
code keeps N — the walk continues through the deleted B via the
sibling-continuation branch and reaches the export. -/
theorem C2_counterexample :
    delete_nodes_seed 100 c2Net [3] true = some [3, 2]
    ∧ (upstream_flow c2Net [2] false).contains 1 = true
    ∧ spec_sole_dependent c2Net [3, 2] 1 = true
    ∧ ¬ ((1 : NodeId) ∈ [3, 2]) := by decide

/-- Claim C3, counterexample: on a network with an empty export list (no
outstanding stash, node 5 not an output) the first toggle hits the
`exports[0]` index panic, so the double toggle does not restore the state. -/
theorem C3_counterexample :
    ((toggle_preview_impl emptyExportsNet 5).bind (fun s => toggle_preview_impl s 5))
      ≠ some emptyExportsNet
    ∧ emptyExportsNet.previous_outputs = none
    ∧ outputs_contain emptyExportsNet 5 = false := by decide

/-- Claim C4, counterexample: with one pasted node already clear of every
existing node, the loop condition (*all* pasted nodes collide) fails at once,
the shift stays zero and the other pasted node still coincides with an
existing node. -/
theorem C4_counterexample :
    paste_shift_loop pasteNet pasteData 10 (0, 0) = some (0, 0)
    ∧ ∃ p ∈ pasteData, ∃ q ∈ pasteNet.nodes, addPos p.2.position (0, 0) = q.2.position := by
  refine ⟨by decide, ⟨(1, { name := "TestNode", position := (0, 0) }), by decide,
    (9, { name := "TestNode", position := (0, 0) }), by decide, by decide⟩⟩

/-- Claim C5, counterexample: in `leftNet` the direct downstream neighbour 2
sits left of node 1 and is not moved (final gap −10 < 8); in `diamondNet` the
closure node 5 is reached along two paths and moved by twice the deficit
(17 + 2·7 = 31), not by the deficit alone. -/
theorem C5_counterexample :
    (shift_node_run 100 leftNet 1).map (fun r =>
        ((getNode r.1 2).map (fun n => n.position.1), (getNode r.1 1).map (fun n => n.position.1)))
      = some (some 0, some 10)
    ∧ ¬ ((0 : Int) - 10 ≥ 8)
    ∧ (shift_node_run 100 diamondNet 1).map (fun r => (getNode r.1 5).map (fun n => n.position.1))
      = some (some 31)
    ∧ ((31 : Int) ≠ 17 + 7) := by decide

/-- Claim C6, counterexample: the panel walk for the single selected layer 1 of
`layerNet` follows only the primary input (showing `[1, 2]`), not all
connection edges as the claim states (which would show `[1, 2, 3]`). -/
theorem C6_counterexample :
    collate_properties layerNet [1] = [1, 2]
    ∧ take_until_second_layer layerNet (upstream_flow layerNet [1] false) = [1, 2, 3]
    ∧ ([1, 2] : List NodeId) ≠ [1, 2, 3] := by decide

/-- Claim C9: an unparsable paste payload is rejected with no mutation and no
insertion, but an out-of-range index passed to the expose-input operation hits
the unchecked `node.inputs[input_index]` Vec access and panics instead of being
rejected cleanly. -/
theorem C9_evaluation :
    expose_input testRegistry exposeNet 1 5 true = none
    ∧ (∀ (registry : Registry) (fuel : Nat) (net : NodeNetwork) (f : NodeId → NodeId),
        paste_nodes registry fuel net none f = some (net, [])) :=
  ⟨by decide, fun _ _ _ _ => rfl⟩

/-- Claim C10, counterexample: deleting node 1 of `c10Net` aborts at the
unresolvable consumer 3, `remove_node` reports failure and keeps node 1 and the
selection — but consumer 2's input has already been rewritten to the detached
default, so the store is not rolled back. -/
theorem C10_counterexample :
    (remove_node testRegistry c10Net [1, 2, 3] 1 false).map
        (fun r => (r.1, (getNode r.2.1 1).isSome, (getNode r.2.1 2).map (fun n => n.inputs),
                   r.2.2))
      = some (false, true, some [NodeInput.value 0 true], [1, 2, 3])
    ∧ (getNode c10Net 2).map (fun n => n.inputs) = some [NodeInput.node 1 0 false]
    ∧ some [NodeInput.value 0 true] ≠ some [NodeInput.node 1 0 false] := by decide

/-- On the two-cycle of `cycNet` the sole-dependent walk bounces between nodes
1 and 2 and exhausts any fuel: the stack never empties. -/
theorem cyc_walk_none : ∀ (fuel : Nat) (c : Bool),
    sole_walk cycNet [10] [10] fuel [1] c = none
    ∧ sole_walk cycNet [10] [10] fuel [2] c = none := by
  intro fuel
  induction fuel with
  | zero => intro c; exact ⟨rfl, rfl⟩
  | succ n ih =>
    intro c
    have h1 : walk_step cycNet [10] [10] 1 = some (false, [2]) := by decide
    have h2 : walk_step cycNet [10] [10] 2 = some (false, [1]) := by decide
    constructor
    · show (match walk_step cycNet [10] [10] 1 with
        | none => none
        | some (saw, pushes) =>
          sole_walk cycNet [10] [10] n (pushes.reverse ++ []) (c && !saw)) = none
      rw [h1]
      simpa using (ih (c && true)).2
    · show (match walk_step cycNet [10] [10] 2 with
        | none => none
        | some (saw, pushes) =>
          sole_walk cycNet [10] [10] n (pushes.reverse ++ []) (c && !saw)) = none
      rw [h2]
      simpa using (ih (c && true)).1

/-- Claim C8: the forward walk of the sole-dependent test inside
`Delete(ids, reconnect = true)` does not terminate on a cyclic input graph —
for every step budget, deleting node 10 of `cycNet` is still running (the
source loop has no visited set and, per its own TODO, no iteration limit). -/
theorem C8_sole_dependent_walk_diverges (fuel : Nat) :
    delete_nodes_seed fuel cycNet [10] true = none := by
  have hw : sole_walk cycNet [10] [10] fuel [1] true = none :=
    (cyc_walk_none fuel true).1
  have hg : getNode cycNet 10
      = some { name := "TestNode", inputs := [.value 0 false, .node 1 0 false] } := by decide
  have hup : upstream_flow cycNet [1] false = [1, 2] := by decide
  have hins : insertId ([] : List NodeId) 10 = [10] := by decide
  simp only [delete_nodes_seed, seed_step, List.foldl, Option.some_bind, if_true, hg, hins]
  simp only [List.get?, hup, List.foldl, Option.some_bind]
  rw [hw]
  rfl

/-! ### C3: preview toggle round trip -/

/-- Claim C3 (amended): for every network with no outstanding stash and a
*non-empty export list*, toggling preview on a node that is not currently an
output and toggling again restores the state bit-for-bit — in particular the
exports and the cleared stash; and toggling a node that is currently an output
with no stash is a no-op.  (The unamended claim fails on an empty export list,
where the source's `exports[0]` assignment panics.) -/
theorem C3_amended_toggle_preview_round_trip (net : NodeNetwork) (X : NodeId)
    (hstash : net.previous_outputs = none) :
    (outputs_contain net X = false → net.exports ≠ [] →
      (toggle_preview_impl net X).bind (fun s => toggle_preview_impl s X) = some net)
    ∧ (outputs_contain net X = true → toggle_preview_impl net X = some net) := by
  constructor
  · intro hout hne
    obtain ⟨ns, im, ex, prev⟩ := net
    simp only at hstash hout hne ⊢
    subst hstash
    cases ex with
    | nil => exact absurd rfl hne
    | cons e es =>
      simp only [toggle_preview_impl, hout, Bool.not_false, if_true, List.isEmpty_cons,
        Bool.false_eq_true, if_false, Option.getD_none, List.set]
      simp only [Option.some_bind]
      have hout2 : outputs_contain
          { nodes := ns, imports := im, exports := NodeOutput.mk X 0 :: es,
            previous_outputs := some (e :: es) } X = true := by
        simp [outputs_contain]
      simp only [toggle_preview_impl, hout2, Bool.not_true, if_false]
      simp
  · intro hout
    simp only [toggle_preview_impl, hout, Bool.not_true, if_false]
    rw [hstash]
    simp

/-- Witness for C3: the round trip and the no-op, on `prevNet`. -/
theorem C3_amended_witness :
    (toggle_preview_impl prevNet 2).bind (fun s => toggle_preview_impl s 2) = some prevNet
    ∧ toggle_preview_impl prevNet 1 = some prevNet := by
  have h2 := C3_amended_toggle_preview_round_trip prevNet 2 (by decide)
  have h1 := C3_amended_toggle_preview_round_trip prevNet 1 (by decide)
  exact ⟨h2.1 (by decide) (by decide), h1.2 (by decide)⟩

/-! ### C4: paste offset loop -/

/-- Claim C4 (amended): the paste shift loop adds the fixed offset while *all*
pasted nodes coincide with existing nodes; when it terminates, *at least one*
pasted node's position differs from every existing node's position (not every
pasted node, as the unamended claim states). -/
theorem C4_amended_paste_shift (net : NodeNetwork) (data : List (NodeId × DocumentNode))
    (fuel : Nat) (shift0 shift : Int × Int)
    (h : paste_shift_loop net data fuel shift0 = some shift) :
    ∃ p ∈ data, ∀ q ∈ net.nodes, addPos p.2.position shift ≠ q.2.position := by
  induction fuel generalizing shift0 with
  | zero => exact absurd h (by simp [paste_shift_loop])
  | succ n ih =>
    rw [paste_shift_loop] at h
    by_cases hc : paste_all_collide net data shift0 = true
    · rw [if_pos hc] at h
      exact ih _ h
    · rw [if_neg hc] at h
      obtain rfl : shift0 = shift := by simpa using h
      simp only [paste_all_collide, List.all_eq_true, not_forall] at hc
      push_neg at hc
      obtain ⟨p, hp, hnp⟩ := hc
      refine ⟨p, hp, ?_⟩
      intro q hq heq
      exact hnp (by simp only [List.any_eq_true]; exact ⟨q, hq, by simp [heq]⟩)

/-- Witness for C4: on `pasteNet`/`pasteData` the loop returns the zero shift
and indeed some pasted node is clear of every existing node. -/
theorem C4_amended_witness :
    ∃ p ∈ pasteData, ∀ q ∈ pasteNet.nodes, addPos p.2.position (0, 0) ≠ q.2.position :=
  C4_amended_paste_shift pasteNet pasteData 10 (0, 0) (0, 0) (by decide)

/-! ### Shared structural lemmas about the rewrite pass -/

/-- The rewrite pass preserves the arena key sequence. -/
theorem remove_references_aux_keys (registry : Registry) (rti : Option NodeInput)
    (del : NodeId) :
    ∀ (l : List (NodeId × DocumentNode)) (b : Bool) (l' : List (NodeId × DocumentNode)),
    remove_references_aux registry rti del l = some (b, l') →
    l'.map (fun p => p.1) = l.map (fun p => p.1) := by
  intro l
  induction l with
  | nil =>
    intro b l' h
    rw [remove_references_aux] at h
    simp only [Option.some.injEq, Prod.mk.injEq] at h
    obtain ⟨rfl, rfl⟩ := h
    rfl
  | cons p rest ih =>
    intro b l' h
    obtain ⟨id, node⟩ := p
    rw [remove_references_aux] at h
    by_cases hd : id = del
    · rw [if_pos hd] at h
      cases haux : remove_references_aux registry rti del rest with
      | none => rw [haux] at h; simp at h
      | some br =>
        rw [haux] at h
        simp only [Option.map_some', Option.some.injEq, Prod.mk.injEq] at h
        obtain ⟨rfl, rfl⟩ := h
        simp only [List.map_cons, List.cons.injEq, true_and]
        exact ih br.1 br.2 (by rw [haux])
    · rw [if_neg hd] at h
      cases hrw : rewrite_inputs registry node.name rti del 0 node.inputs with
      | panicked => rw [hrw] at h; simp at h
      | aborted =>
        rw [hrw] at h
        simp only [Option.some.injEq, Prod.mk.injEq] at h
        obtain ⟨rfl, rfl⟩ := h
        rfl
      | ok inputs' =>
        rw [hrw] at h
        cases haux : remove_references_aux registry rti del rest with
        | none => rw [haux] at h; simp at h
        | some br =>
          rw [haux] at h
          simp only [Option.map_some', Option.some.injEq, Prod.mk.injEq] at h
          obtain ⟨rfl, rfl⟩ := h
          simp only [List.map_cons, List.cons.injEq, true_and]
          exact ih br.1 br.2 (by rw [haux])

/-- The rewrite pass never touches the entry of the node being deleted. -/
theorem remove_references_aux_del_entry (registry : Registry) (rti : Option NodeInput)
    (del : NodeId) :
    ∀ (l : List (NodeId × DocumentNode)) (b : Bool) (l' : List (NodeId × DocumentNode)),
    remove_references_aux registry rti del l = some (b, l') →
    l'.find? (fun p => p.1 = del) = l.find? (fun p => p.1 = del) := by
  intro l
  induction l with
  | nil =>
    intro b l' h
    rw [remove_references_aux] at h
    simp only [Option.some.injEq, Prod.mk.injEq] at h
    obtain ⟨rfl, rfl⟩ := h
    rfl
  | cons p rest ih =>
    intro b l' h
    obtain ⟨id, node⟩ := p
    rw [remove_references_aux] at h
    by_cases hd : id = del
    · rw [if_pos hd] at h
      cases haux : remove_references_aux registry rti del rest with
      | none => rw [haux] at h; simp at h
      | some br =>
        rw [haux] at h
        simp only [Option.map_some', Option.some.injEq, Prod.mk.injEq] at h
        obtain ⟨rfl, rfl⟩ := h
        simp [List.find?, hd]
    · rw [if_neg hd] at h
      cases hrw : rewrite_inputs registry node.name rti del 0 node.inputs with
      | panicked => rw [hrw] at h; simp at h
      | aborted =>
        rw [hrw] at h
        simp only [Option.some.injEq, Prod.mk.injEq] at h
        obtain ⟨rfl, rfl⟩ := h
        rfl
      | ok inputs' =>
        rw [hrw] at h
        cases haux : remove_references_aux registry rti del rest with
        | none => rw [haux] at h; simp at h
        | some br =>
          rw [haux] at h
          simp only [Option.map_some', Option.some.injEq, Prod.mk.injEq] at h
          obtain ⟨rfl, rfl⟩ := h
          rw [List.find?_cons_of_neg _ (by simp [hd]), List.find?_cons_of_neg _ (by simp [hd])]
          exact ih br.1 br.2 (by rw [haux])

/-- `remove_references_from_network` preserves imports, exports, the preview
stash, the key sequence and the deleted node's own entry, whatever it
returns. -/
theorem remove_references_parts (registry : Registry) (net : NodeNetwork) (X : NodeId)
    (reconnect : Bool) (b : Bool) (net' : NodeNetwork)
    (h : remove_references_from_network registry net X reconnect = some (b, net')) :
    net'.imports = net.imports ∧ net'.exports = net.exports
    ∧ net'.previous_outputs = net.previous_outputs
    ∧ net'.nodes.map (fun p => p.1) = net.nodes.map (fun p => p.1)
    ∧ getNode net' X = getNode net X := by
  rw [remove_references_from_network] at h
  by_cases h1 : net.imports.contains X = true
  · rw [if_pos h1] at h
    simp only [Option.some.injEq, Prod.mk.injEq] at h
    obtain ⟨rfl, rfl⟩ := h
    exact ⟨rfl, rfl, rfl, rfl, rfl⟩
  · rw [if_neg h1] at h
    by_cases h2 : outputs_contain net X = true
    · rw [if_pos h2] at h
      simp only [Option.some.injEq, Prod.mk.injEq] at h
      obtain ⟨rfl, rfl⟩ := h
      exact ⟨rfl, rfl, rfl, rfl, rfl⟩
    · rw [if_neg h2] at h
      cases haux : remove_references_aux registry (reconnect_input net X reconnect)
          X net.nodes with
      | none => rw [haux] at h; simp at h
      | some br =>
        rw [haux] at h
        simp only [Option.map_some', Option.some.injEq, Prod.mk.injEq] at h
        obtain ⟨rfl, rfl⟩ := h
        refine ⟨rfl, rfl, rfl, remove_references_aux_keys _ _ _ _ _ _ haux, ?_⟩
        show (br.2.find? (fun p => p.1 = X)).map (fun p => p.2)
          = (net.nodes.find? (fun p => p.1 = X)).map (fun p => p.2)
        rw [remove_references_aux_del_entry _ _ _ _ _ _ haux]

/-! ### C10: no rollback on a failed rewrite pass -/

/-- Claim C10 (amended): when the rewrite pass fails partway, `remove_node`
reports failure and the node being deleted remains in the network (its entry
byte-for-byte intact) and in the selection set, with the arena keys and the
import/export boundary untouched — but the inputs already rewritten by the
aborted pass keep their new values; there is no rollback. -/
theorem C10_amended_failed_delete (registry : Registry) (net : NodeNetwork)
    (selected : List NodeId) (X : NodeId) (reconnect : Bool) (net' : NodeNetwork)
    (h : remove_references_from_network registry net X reconnect = some (false, net')) :
    remove_node registry net selected X reconnect = some (false, net', selected)
    ∧ getNode net' X = getNode net X
    ∧ net'.nodes.map (fun p => p.1) = net.nodes.map (fun p => p.1)
    ∧ net'.imports = net.imports ∧ net'.exports = net.exports := by
  obtain ⟨hi, he, hp, hk, hx⟩ := remove_references_parts registry net X reconnect false net' h
  refine ⟨?_, hx, hk, hi, he⟩
  rw [remove_node, h]

/-- The partially rewritten arena left by the aborted delete of node 1 in
`c10Net`: consumer 2 already reset, consumer 3 untouched. -/
def c10PartialNet : NodeNetwork :=
  { nodes := [(1, { name := "TestNode", inputs := [.value 0 false] }),
              (2, { name := "TestNode", inputs := [.value 0 true] }),
              (3, { name := "Unknown", inputs := [.node 1 0 false] })] }

/-- Witness for C10: the aborted delete of node 1 in `c10Net` hands back the
partially rewritten arena with node 1 and the selection intact. -/
theorem C10_amended_witness :
    remove_node testRegistry c10Net [1, 2, 3] 1 false = some (false, c10PartialNet, [1, 2, 3])
    ∧ getNode c10PartialNet 1 = getNode c10Net 1
    ∧ c10PartialNet.nodes.map (fun p => p.1) = c10Net.nodes.map (fun p => p.1)
    ∧ c10PartialNet.imports = c10Net.imports ∧ c10PartialNet.exports = c10Net.exports :=
  C10_amended_failed_delete testRegistry c10Net [1, 2, 3] 1 false c10PartialNet (by decide)

/-! ### C6: properties-panel selection -/

/-- A layer-flagged id is an id with a node in the network. -/
theorem isLayerId_isSome (net : NodeNetwork) (id : NodeId) (h : isLayerId net id = true) :
    (getNode net id).isSome = true := by
  rw [isLayerId] at h
  cases hg : getNode net id with
  | none => rw [hg] at h; simp at h
  | some n => rfl

/-- Restricting the selection to present nodes does not change its layers. -/
theorem layers_filter_comm (net : NodeNetwork) (selected : List NodeId) :
    (selected.filter (fun id => (getNode net id).isSome)).filter (fun id => isLayerId net id)
      = selected.filter (fun id => isLayerId net id) := by
  rw [List.filter_filter]
  apply List.filter_congr
  intro id _
  cases hl : isLayerId net id with
  | false => simp
  | true => simp [isLayerId_isSome net id hl]

/-- Claim C6 (amended): with more than one selected layer nothing is shown;
with exactly one selected layer, if any selected non-layer node is not upstream
of that layer (primary flow) nothing is shown, and otherwise the panel shows
exactly the nodes of `upstreamFlow({layer}, primaryOnly = true)` — the
*primary-only* walk, not the all-edges walk of the unamended claim — collected
until (but not including, after the first) a second layer node. -/
theorem C6_amended_collate_properties (net : NodeNetwork) (selected : List NodeId) :
    (2 ≤ (selected.filter (fun id => isLayerId net id)).length →
        collate_properties net selected = [])
    ∧ (∀ layer, selected.filter (fun id => isLayerId net id) = [layer] →
        (((selected.filter (fun id => (getNode net id).isSome)).filter
              (fun id => !isLayerId net id)).any
            (fun id => !is_node_upstream_of_another_by_primary_flow net layer id) = true →
          collate_properties net selected = [])
        ∧ (((selected.filter (fun id => (getNode net id).isSome)).filter
              (fun id => !isLayerId net id)).all
            (fun id => is_node_upstream_of_another_by_primary_flow net layer id) = true →
          collate_properties net selected
            = take_until_second_layer net (upstream_flow net [layer] true))) := by
  constructor
  · intro h2
    rw [collate_properties, layers_filter_comm]
    cases hl : selected.filter (fun id => isLayerId net id) with
    | nil => rw [hl] at h2; simp at h2
    | cons x rest =>
      cases rest with
      | nil => rw [hl] at h2; simp at h2
      | cons y rest2 => rfl
  · intro layer hl
    constructor
    · intro hany
      rw [collate_properties, layers_filter_comm, hl]
      simp only [hany, if_true]
    · intro hall
      rw [collate_properties, layers_filter_comm, hl]
      have hno : ((selected.filter (fun id => (getNode net id).isSome)).filter
          (fun id => !isLayerId net id)).any
          (fun id => !is_node_upstream_of_another_by_primary_flow net layer id) = false := by
        rw [List.any_eq_false]
        intro id hid
        have := (List.all_eq_true.mp hall) id hid
        simp [this]
      simp only [hno]
      simp

/-- Witness for C6: the three branches on concrete networks. -/
theorem C6_amended_witness :
    collate_properties twoLayerNet [1, 2] = []
    ∧ collate_properties layerNet [1, 3] = []
    ∧ collate_properties layerNet [1]
        = take_until_second_layer layerNet (upstream_flow layerNet [1] true) :=
  ⟨(C6_amended_collate_properties twoLayerNet [1, 2]).1 (by decide),
   ((C6_amended_collate_properties layerNet [1, 3]).2 1 (by decide)).1 (by decide),
   ((C6_amended_collate_properties layerNet [1]).2 1 (by decide)).2 (by decide)⟩

/-! ### C1: delete-with-reconnect reference rewrite -/

theorem InputsResult.push_ok {i : NodeInput} {r : InputsResult} {l : List NodeInput}
    (h : r.push i = .ok l) : ∃ l', r = .ok l' ∧ l = i :: l' := by
  cases r with
  | panicked => simp [InputsResult.push] at h
  | aborted => simp [InputsResult.push] at h
  | ok rest => exact ⟨rest, rfl, by simpa [InputsResult.push] using h.symm⟩

theorem rewrite_inputs_cons_ok {registry : Registry} {name : String}
    {rti : Option NodeInput} {del : NodeId} {idx : Nat} {i : NodeInput}
    {rest : List NodeInput} {inputs' : List NodeInput}
    (h : rewrite_inputs registry name rti del idx (i :: rest) = .ok inputs') :
    ∃ i' rest', inputs' = i' :: rest'
      ∧ rewrite_inputs registry name rti del (idx + 1) rest = .ok rest' := by
  cases i with
  | value tv e =>
    simp only [rewrite_inputs] at h
    obtain ⟨l', hr, hl⟩ := InputsResult.push_ok h
    exact ⟨_, l', hl, hr⟩
  | network =>
    simp only [rewrite_inputs] at h
    obtain ⟨l', hr, hl⟩ := InputsResult.push_ok h
    exact ⟨_, l', hl, hr⟩
  | node uid oidx lam =>
    simp only [rewrite_inputs] at h
    by_cases hu : uid = del
    · simp only [if_pos hu] at h
      cases hreg : registry name with
      | none => simp only [hreg] at h; simp at h
      | some defaults =>
        simp only [hreg] at h
        cases hget : defaults.get? idx with
        | none => simp only [hget] at h; simp at h
        | some d =>
          simp only [hget] at h
          cases d with
          | value tv e =>
            obtain ⟨l', hr, hl⟩ := InputsResult.push_ok h
            exact ⟨_, l', hl, hr⟩
          | node a b c =>
            obtain ⟨l', hr, hl⟩ := InputsResult.push_ok h
            exact ⟨_, l', hl, hr⟩
          | network =>
            obtain ⟨l', hr, hl⟩ := InputsResult.push_ok h
            exact ⟨_, l', hl, hr⟩
    · simp only [if_neg hu] at h
      obtain ⟨l', hr, hl⟩ := InputsResult.push_ok h
      exact ⟨_, l', hl, hr⟩

theorem rewrite_inputs_ok_at (registry : Registry) (name : String) (rti : Option NodeInput)
    (del : NodeId) :
    ∀ (inputs : List NodeInput) (idx k : Nat) (inputs' : List NodeInput)
      (oidx : Nat) (lam : Bool) (tv : TaggedValue) (e : Bool),
    rewrite_inputs registry name rti del idx inputs = .ok inputs' →
    inputs.get? k = some (.node del oidx lam) →
    (registry name).bind (fun ds => ds.get? (idx + k)) = some (.value tv e) →
    inputs'.get? k = some (match rti with
      | some r => if oidx = 0 then r else NodeInput.value tv true
      | none => NodeInput.value tv true) := by
  intro inputs
  induction inputs with
  | nil =>
    intro idx k inputs' oidx lam tv e hok hk hreg
    simp at hk
  | cons i rest ih =>
    intro idx k inputs' oidx lam tv e hok hk hreg
    cases k with
    | zero =>
      simp only [List.get?] at hk
      obtain rfl : i = NodeInput.node del oidx lam := by injection hk
      simp only [rewrite_inputs, if_pos rfl] at hok
      cases hr : registry name with
      | none => rw [hr] at hreg; simp at hreg
      | some ds =>
        rw [hr] at hreg
        simp only [Option.some_bind, Nat.add_zero] at hreg
        simp only [hr, hreg] at hok
        obtain ⟨l', hrec, hl⟩ := InputsResult.push_ok hok
        subst hl
        rfl
    | succ k' =>
      obtain ⟨i', rest', rfl, hrec⟩ := rewrite_inputs_cons_ok hok
      simp only [List.get?] at hk ⊢
      have hreg' : (registry name).bind (fun ds => ds.get? (idx + 1 + k')) = some (.value tv e) := by
        have : idx + 1 + k' = idx + (k' + 1) := by omega
        rw [this]
        exact hreg
      exact ih (idx + 1) k' rest' oidx lam tv e hrec hk hreg'

theorem remove_references_aux_find (registry : Registry) (rti : Option NodeInput)
    (del : NodeId) :
    ∀ (l l' : List (NodeId × DocumentNode)) (cid : NodeId) (cn : DocumentNode),
    remove_references_aux registry rti del l = some (true, l') →
    cid ≠ del →
    (l.find? (fun p => p.1 = cid)).map (fun p => p.2) = some cn →
    ∃ inputs', rewrite_inputs registry cn.name rti del 0 cn.inputs = .ok inputs'
      ∧ (l'.find? (fun p => p.1 = cid)).map (fun p => p.2)
        = some { cn with inputs := inputs' } := by
  intro l
  induction l with
  | nil =>
    intro l' cid cn h hne hf
    simp at hf
  | cons p rest ih =>
    intro l' cid cn h hne hf
    obtain ⟨id, node⟩ := p
    rw [remove_references_aux] at h
    by_cases hd : id = del
    · rw [if_pos hd] at h
      cases haux : remove_references_aux registry rti del rest with
      | none => rw [haux] at h; simp at h
      | some br =>
        rw [haux] at h
        simp only [Option.map_some', Option.some.injEq, Prod.mk.injEq] at h
        obtain ⟨hb, rfl⟩ := h
        have hne2 : ¬ id = cid := fun hh => hne (by rw [← hh, hd])
        rw [List.find?_cons_of_neg _ (by simp [hne2])] at hf
        rw [List.find?_cons_of_neg _ (by simp [hne2])]
        exact ih br.2 cid cn (by rw [haux, ← hb]) hne hf
    · rw [if_neg hd] at h
      cases hrw : rewrite_inputs registry node.name rti del 0 node.inputs with
      | panicked => rw [hrw] at h; simp at h
      | aborted =>
        rw [hrw] at h
        simp only [Option.some.injEq, Prod.mk.injEq] at h
        exact absurd h.1 (by simp)
      | ok inputs'h =>
        rw [hrw] at h
        cases haux : remove_references_aux registry rti del rest with
        | none => rw [haux] at h; simp at h
        | some br =>
          rw [haux] at h
          simp only [Option.map_some', Option.some.injEq, Prod.mk.injEq] at h
          obtain ⟨hb, rfl⟩ := h
          by_cases hc : id = cid
          · rw [List.find?_cons_of_pos _ (by simp [hc])] at hf
            simp only [Option.map_some', Option.some.injEq] at hf
            subst hf
            rw [List.find?_cons_of_pos _ (by simp [hc])]
            exact ⟨inputs'h, hrw, rfl⟩
          · rw [List.find?_cons_of_neg _ (by simp [hc])] at hf
            rw [List.find?_cons_of_neg _ (by simp [hc])]
            exact ih br.2 cid cn (by rw [haux, ← hb]) hne hf

theorem remove_references_ok_rewrite (registry : Registry) (net net' : NodeNetwork)
    (del : NodeId) (reconnect : Bool)
    (h : remove_references_from_network registry net del reconnect = some (true, net'))
    (cid : NodeId) (cn : DocumentNode) (hne : cid ≠ del)
    (hcn : getNode net cid = some cn)
    (k oidx : Nat) (lam' : Bool)
    (hin : cn.inputs.get? k = some (.node del oidx lam'))
    (tv : TaggedValue) (e : Bool)
    (hreg : (registry cn.name).bind (fun ds => ds.get? k) = some (.value tv e)) :
    ∃ cn', getNode net' cid = some cn'
      ∧ cn'.inputs.get? k = some (match reconnect_input net del reconnect with
          | some r => if oidx = 0 then r else NodeInput.value tv true
          | none => NodeInput.value tv true) := by
  rw [remove_references_from_network] at h
  by_cases h1 : net.imports.contains del = true
  · rw [if_pos h1] at h; simp at h
  · rw [if_neg h1] at h
    by_cases h2 : outputs_contain net del = true
    · rw [if_pos h2] at h; simp at h
    · rw [if_neg h2] at h
      cases haux : remove_references_aux registry (reconnect_input net del reconnect)
          del net.nodes with
      | none => rw [haux] at h; simp at h
      | some br =>
        rw [haux] at h
        simp only [Option.map_some', Option.some.injEq, Prod.mk.injEq] at h
        obtain ⟨hb, rfl⟩ := h
        obtain ⟨inputs', hok, hfind⟩ := remove_references_aux_find registry
          (reconnect_input net del reconnect) del net.nodes br.2 cid cn
          (by rw [haux, ← hb]) hne hcn
        refine ⟨{ cn with inputs := inputs' }, hfind, ?_⟩
        have hreg' : (registry cn.name).bind (fun ds => ds.get? (0 + k))
            = some (.value tv e) := by rw [Nat.zero_add]; exact hreg
        exact rewrite_inputs_ok_at registry cn.name (reconnect_input net del reconnect)
          del cn.inputs 0 k inputs' oidx lam' tv e hok hin hreg'

theorem reconnect_input_of_node (net : NodeNetwork) (del src : NodeId) (oi : Nat) (lam : Bool)
    (deln : DocumentNode) (hdeln : getNode net del = some deln)
    (hprim : deln.inputs.head? = some (.node src oi lam)) :
    reconnect_input net del true = some (.node src oi lam) := by
  rw [reconnect_input]
  simp only [if_true, hdeln, hprim]

theorem reconnect_input_none_of_not_node (net : NodeNetwork) (del : NodeId)
    (deln : DocumentNode) (hdeln : getNode net del = some deln)
    (hnc : ∀ (a : NodeId) (b : Nat) (c : Bool), deln.inputs.head? ≠ some (.node a b c)) :
    reconnect_input net del true = none := by
  rw [reconnect_input]
  simp only [if_true, hdeln]

/-- Claim C1 (amended): for a delete with `reconnect` whose rewrite pass
succeeds, a surviving consumer input that is a `NodeConnection` to the deleted
node is — *provided the registry default for that input index is a `Value`* —
replaced by the deleted node's primary-input connection when that primary input
is a connection and the consumer referenced output 0; otherwise (output index
not 0, or primary input not a connection) it is reset to that registry default
`Value` with `exposed` forced to true.  (When the registry default at the index
is not a `Value` the source leaves the input unchanged, which refutes the
unamended claim.)  The linear chain of spec §8 behaves as claimed:
`Delete({B}, reconnect=true)` on export←A←B←C yields export←A←C with B gone and
C still connected to the output. -/
theorem C1_amended_reference_rewrite :
    (∀ (registry : Registry) (net net' : NodeNetwork) (del src : NodeId) (oi : Nat)
        (lam : Bool) (deln : DocumentNode) (cid : NodeId) (cn : DocumentNode)
        (k : Nat) (lam' : Bool) (tv : TaggedValue) (e : Bool),
      remove_references_from_network registry net del true = some (true, net') →
      getNode net del = some deln →
      deln.inputs.head? = some (.node src oi lam) →
      cid ≠ del → getNode net cid = some cn →
      cn.inputs.get? k = some (.node del 0 lam') →
      (registry cn.name).bind (fun ds => ds.get? k) = some (.value tv e) →
      ∃ cn', getNode net' cid = some cn' ∧ cn'.inputs.get? k = some (.node src oi lam))
    ∧ (∀ (registry : Registry) (net net' : NodeNetwork) (del src : NodeId) (oi oidx : Nat)
        (lam : Bool) (deln : DocumentNode) (cid : NodeId) (cn : DocumentNode)
        (k : Nat) (lam' : Bool) (tv : TaggedValue) (e : Bool),
      remove_references_from_network registry net del true = some (true, net') →
      getNode net del = some deln →
      deln.inputs.head? = some (.node src oi lam) →
      oidx ≠ 0 →
      cid ≠ del → getNode net cid = some cn →
      cn.inputs.get? k = some (.node del oidx lam') →
      (registry cn.name).bind (fun ds => ds.get? k) = some (.value tv e) →
      ∃ cn', getNode net' cid = some cn'
        ∧ cn'.inputs.get? k = some (NodeInput.value tv true))
    ∧ (∀ (registry : Registry) (net net' : NodeNetwork) (del : NodeId) (oidx : Nat)
        (deln : DocumentNode) (cid : NodeId) (cn : DocumentNode)
        (k : Nat) (lam' : Bool) (tv : TaggedValue) (e : Bool),
      remove_references_from_network registry net del true = some (true, net') →
      getNode net del = some deln →
      (∀ (a : NodeId) (b : Nat) (c : Bool), deln.inputs.head? ≠ some (.node a b c)) →
      cid ≠ del → getNode net cid = some cn →
      cn.inputs.get? k = some (.node del oidx lam') →
      (registry cn.name).bind (fun ds => ds.get? k) = some (.value tv e) →
      ∃ cn', getNode net' cid = some cn'
        ∧ cn'.inputs.get? k = some (NodeInput.value tv true))
    ∧ (delete_nodes_run testRegistry 100 chainNet [] [2] true = some (chainNetAfter, [])
       ∧ connected_to_output chainNetAfter 3 = true
       ∧ getNode chainNetAfter 2 = none) := by
  refine ⟨?_, ?_, ?_, by decide⟩
  · intro registry net net' del src oi lam deln cid cn k lam' tv e h hdeln hprim hne hcn hin hreg
    obtain ⟨cn', hg, hk⟩ := remove_references_ok_rewrite registry net net' del true h
      cid cn hne hcn k 0 lam' hin tv e hreg
    refine ⟨cn', hg, ?_⟩
    rw [reconnect_input_of_node net del src oi lam deln hdeln hprim] at hk
    simpa using hk
  · intro registry net net' del src oi oidx lam deln cid cn k lam' tv e h hdeln hprim hoidx
      hne hcn hin hreg
    obtain ⟨cn', hg, hk⟩ := remove_references_ok_rewrite registry net net' del true h
      cid cn hne hcn k oidx lam' hin tv e hreg
    refine ⟨cn', hg, ?_⟩
    rw [reconnect_input_of_node net del src oi lam deln hdeln hprim] at hk
    simpa [hoidx] using hk
  · intro registry net net' del oidx deln cid cn k lam' tv e h hdeln hnc hne hcn hin hreg
    obtain ⟨cn', hg, hk⟩ := remove_references_ok_rewrite registry net net' del true h
      cid cn hne hcn k oidx lam' hin tv e hreg
    refine ⟨cn', hg, ?_⟩
    rw [reconnect_input_none_of_not_node net del deln hdeln hnc] at hk
    simpa using hk

/-- The network after the rewrite pass of deleting B(2) from `chainNet`:
A(1) is bridged straight to C(3); B's own entry is untouched and still present
(physical removal happens afterwards in `remove_node`). -/
def chainMidNet : NodeNetwork :=
  { nodes := [(1, { name := "TestNode", inputs := [.node 3 0 false] }),
              (2, { name := "TestNode", inputs := [.node 3 0 false] }),
              (3, { name := "TestNode", inputs := [.value 7 false] })],
    exports := [⟨1, 0⟩] }

/-- Witness for C1: the splice branch on the concrete chain. -/
theorem C1_amended_witness :
    ∃ cn', getNode chainMidNet 1 = some cn'
      ∧ cn'.inputs.get? 0 = some (NodeInput.node 3 0 false) :=
  (C1_amended_reference_rewrite).1 testRegistry chainNet chainMidNet 2 3 0 false
    { name := "TestNode", inputs := [.node 3 0 false] } 1
    { name := "TestNode", inputs := [.node 2 0 false] } 0 false 0 false
    (by decide) (by decide) (by decide) (by decide) (by decide) (by decide) (by decide)

/-! ### C7: boundary protection on delete -/

theorem foldl_option_none {α β : Type _} (g : β → α → Option β) :
    ∀ l : List α, l.foldl (fun acc x => acc.bind (fun b => g b x)) none = none := by
  intro l
  induction l with
  | nil => rfl
  | cons x xs ih => simpa using ih

theorem mem_insertId_self (l : List NodeId) (a : NodeId) : a ∈ insertId l a := by
  rw [insertId]
  by_cases h : l.contains a = true
  · rw [if_pos h]
    simpa using h
  · rw [if_neg h]
    simp

theorem mem_insertId_of_mem (l : List NodeId) (a x : NodeId) (h : x ∈ l) : x ∈ insertId l a := by
  rw [insertId]
  by_cases hc : l.contains a = true
  · rw [if_pos hc]; exact h
  · rw [if_neg hc]; exact List.mem_append_left _ h

theorem seed_inner_mono (net : NodeNetwork) (node_ids : List NodeId) (fuel : Nat) :
    ∀ (ups : List NodeId) (del del' : List NodeId),
    ups.foldl (fun acc2 up => acc2.bind (fun del2 =>
        match sole_walk net del2 node_ids fuel [up] true with
        | none => none
        | some true => some (insertId del2 up)
        | some false => some del2))
      (some del) = some del' →
    ∀ x ∈ del, x ∈ del' := by
  intro ups
  induction ups with
  | nil =>
    intro del del' h x hx
    simp only [List.foldl, Option.some.injEq] at h
    exact h ▸ hx
  | cons u rest ih =>
    intro del del' h x hx
    simp only [List.foldl, Option.some_bind] at h
    cases hw : sole_walk net del node_ids fuel [u] true with
    | none =>
      rw [hw] at h
      rw [foldl_option_none] at h
      simp at h
    | some b =>
      rw [hw] at h
      cases b with
      | true => exact ih (insertId del u) del' h x (mem_insertId_of_mem del u x hx)
      | false => exact ih del del' h x hx

theorem seed_step_mem (fuel : Nat) (net : NodeNetwork) (node_ids : List NodeId)
    (reconnect : Bool) (del : List NodeId) (id : NodeId) (del' : List NodeId)
    (h : seed_step fuel net node_ids reconnect del id = some del') :
    (∀ x ∈ del, x ∈ del') ∧ id ∈ del' := by
  rw [seed_step] at h
  cases reconnect with
  | false =>
    simp only [Bool.false_eq_true, if_false, Option.some.injEq] at h
    subst h
    exact ⟨fun x hx => mem_insertId_of_mem del id x hx, mem_insertId_self del id⟩
  | true =>
    simp only [if_true] at h
    cases hg : getNode net id with
    | none => rw [hg] at h; simp at h
    | some node =>
      simp only [hg] at h
      cases hi : node.inputs.get? 1 with
      | none =>
        simp only [hi] at h
        simp only [Option.some.injEq] at h
        subst h
        exact ⟨fun x hx => mem_insertId_of_mem del id x hx, mem_insertId_self del id⟩
      | some inp =>
        simp only [hi] at h
        cases inp with
        | node child oi lam =>
          have hmono := seed_inner_mono net node_ids fuel
            (upstream_flow net [child] false) (insertId del id) del' h
          exact ⟨fun x hx => hmono x (mem_insertId_of_mem del id x hx),
            hmono id (mem_insertId_self del id)⟩
        | value tv e =>
          simp only [Option.some.injEq] at h
          subst h
          exact ⟨fun x hx => mem_insertId_of_mem del id x hx, mem_insertId_self del id⟩
        | network =>
          simp only [Option.some.injEq] at h
          subst h
          exact ⟨fun x hx => mem_insertId_of_mem del id x hx, mem_insertId_self del id⟩

theorem seed_fold_mem (fuel : Nat) (net : NodeNetwork) (node_ids : List NodeId)
    (reconnect : Bool) :
    ∀ (l : List NodeId) (acc del' : List NodeId),
    l.foldl (fun acc2 id => acc2.bind
        (fun del => seed_step fuel net node_ids reconnect del id)) (some acc) = some del' →
    (∀ x ∈ acc, x ∈ del') ∧ (∀ id ∈ l, id ∈ del') := by
  intro l
  induction l with
  | nil =>
    intro acc del' h
    simp only [List.foldl, Option.some.injEq] at h
    exact ⟨fun x hx => h ▸ hx, by simp⟩
  | cons i rest ih =>
    intro acc del' h
    simp only [List.foldl, Option.some_bind] at h
    cases hs : seed_step fuel net node_ids reconnect acc i with
    | none =>
      rw [hs] at h
      rw [foldl_option_none] at h
      simp at h
    | some acc2 =>
      rw [hs] at h
      obtain ⟨hsub, hi⟩ := seed_step_mem fuel net node_ids reconnect acc i acc2 hs
      obtain ⟨hsub2, hrest⟩ := ih acc2 del' h
      refine ⟨fun x hx => hsub2 x (hsub x hx), ?_⟩
      intro id hid
      rcases List.mem_cons.mp hid with rfl | hmem
      · exact hsub2 id hi
      · exact hrest id hmem

theorem delete_nodes_seed_mem (fuel : Nat) (net : NodeNetwork) (node_ids : List NodeId)
    (reconnect : Bool) (del' : List NodeId)
    (h : delete_nodes_seed fuel net node_ids reconnect = some del') :
    ∀ id ∈ node_ids, id ∈ del' := by
  rw [delete_nodes_seed] at h
  exact (seed_fold_mem fuel net node_ids reconnect node_ids [] del' h).2

theorem getNode_isSome_iff_mem_keys (net : NodeNetwork) (id : NodeId) :
    (getNode net id).isSome = true ↔ id ∈ net.nodes.map (fun p => p.1) := by
  rw [getNode]
  cases hf : net.nodes.find? (fun p => p.1 = id) with
  | none =>
    simp only [Option.map_none', Option.isSome_none, Bool.false_eq_true, false_iff]
    intro hmem
    obtain ⟨p, hp, hp1⟩ := List.mem_map.mp hmem
    have := List.find?_eq_none.mp hf p hp
    simp [hp1] at this
  | some p =>
    simp only [Option.map_some', Option.isSome_some, true_iff]
    have hp1 : p.1 = id := by simpa using List.find?_some hf
    exact List.mem_map.mpr ⟨p, List.mem_of_find?_eq_some hf, hp1⟩

theorem keys_filter_ne (l : List (NodeId × DocumentNode)) (X j : NodeId) (hne : j ≠ X) :
    (j ∈ (l.filter (fun p => p.1 ≠ X)).map (fun p => p.1)) ↔ j ∈ l.map (fun p => p.1) := by
  simp only [List.mem_map, List.mem_filter, decide_eq_true_eq]
  constructor
  · rintro ⟨p, ⟨hp, _⟩, hp1⟩
    exact ⟨p, hp, hp1⟩
  · rintro ⟨p, hp, hp1⟩
    exact ⟨p, ⟨hp, by rw [hp1]; exact hne⟩, hp1⟩

theorem remove_node_parts (registry : Registry) (net : NodeNetwork) (sel : List NodeId)
    (X : NodeId) (reconnect : Bool) (b : Bool) (net' : NodeNetwork) (sel' : List NodeId)
    (h : remove_node registry net sel X reconnect = some (b, net', sel')) :
    net'.imports = net.imports ∧ net'.exports = net.exports
    ∧ ∀ j, j ≠ X →
        ((getNode net' j).isSome = true ↔ (getNode net j).isSome = true) := by
  rw [remove_node] at h
  cases hrr : remove_references_from_network registry net X reconnect with
  | none => rw [hrr] at h; simp at h
  | some br =>
    obtain ⟨b0, n0⟩ := br
    obtain ⟨hi, he, hp, hk, hx⟩ := remove_references_parts registry net X reconnect b0 n0 hrr
    rw [hrr] at h
    cases b0 with
    | false =>
      simp only [Option.some.injEq, Prod.mk.injEq] at h
      obtain ⟨rfl, rfl, rfl⟩ := h
      refine ⟨hi, he, fun j hne => ?_⟩
      rw [getNode_isSome_iff_mem_keys, getNode_isSome_iff_mem_keys, hk]
    | true =>
      simp only [Option.some.injEq, Prod.mk.injEq] at h
      obtain ⟨rfl, rfl, rfl⟩ := h
      refine ⟨hi, he, fun j hne => ?_⟩
      rw [getNode_isSome_iff_mem_keys, getNode_isSome_iff_mem_keys]
      show j ∈ (n0.nodes.filter _).map (fun p => p.1) ↔ _
      rw [keys_filter_ne n0.nodes X j hne, hk]

theorem remove_node_boundary (registry : Registry) (net : NodeNetwork) (sel : List NodeId)
    (X : NodeId) (reconnect : Bool)
    (hb : net.imports.contains X = true ∨ outputs_contain net X = true) :
    remove_node registry net sel X reconnect = some (false, net, sel) := by
  rw [remove_node, remove_references_from_network]
  by_cases h1 : net.imports.contains X = true
  · rw [if_pos h1]
  · rw [if_neg h1]
    rcases hb with hb | hb
    · exact absurd hb h1
    · rw [if_pos hb]

theorem run_fold_keep (registry : Registry) (reconnect : Bool) (imports0 : List NodeId)
    (exports0 : List NodeOutput) (id : NodeId)
    (hb : imports0.contains id = true ∨ exports0.any (fun o => o.node_id = id) = true) :
    ∀ (dl : List NodeId) (n : NodeNetwork) (sel : List NodeId)
      (out : NodeNetwork) (sel' : List NodeId),
    dl.foldl (fun acc did => acc.bind (fun ns => run_step registry reconnect ns did))
      (some (n, sel)) = some (out, sel') →
    n.imports = imports0 → n.exports = exports0 →
    (id ∈ dl ∨ (getNode n id).isSome = true) →
    (getNode out id).isSome = true := by
  intro dl
  induction dl with
  | nil =>
    intro n sel out sel' h hi he hd
    simp only [List.foldl, Option.some.injEq, Prod.mk.injEq] at h
    rcases hd with hd | hd
    · simp at hd
    · exact h.1 ▸ hd
  | cons d rest ih =>
    intro n sel out sel' h hi he hd
    simp only [List.foldl, Option.some_bind] at h
    cases hs : run_step registry reconnect (n, sel) d with
    | none =>
      rw [hs] at h
      rw [foldl_option_none] at h
      simp at h
    | some ns2 =>
      rw [hs] at h
      by_cases hid : d = id
      · subst hid
        have hbnd : remove_node registry n sel d reconnect = some (false, n, sel) :=
          remove_node_boundary registry n sel d reconnect
            (by
              rcases hb with hb | hb
              · exact Or.inl (by rw [hi]; exact hb)
              · exact Or.inr (by rw [outputs_contain, he]; exact hb))
        rw [run_step] at hs
        cases hg : getNode n d with
        | none => rw [hg] at hs; simp at hs
        | some dn =>
          rw [hg] at hs
          rw [hbnd] at hs
          simp only [Option.map_some', Option.some.injEq] at hs
          subst hs
          exact ih n sel out sel' h hi he (Or.inr (by rw [hg]; rfl))
      · rw [run_step] at hs
        cases hg : getNode n d with
        | none => rw [hg] at hs; simp at hs
        | some dn =>
          rw [hg] at hs
          cases hrm : remove_node registry n sel d reconnect with
          | none => rw [hrm] at hs; simp at hs
          | some r =>
            rw [hrm] at hs
            simp only [Option.map_some', Option.some.injEq] at hs
            subst hs
            obtain ⟨b0, n2, sel2⟩ := r
            obtain ⟨hi2, he2, hkeys⟩ :=
              remove_node_parts registry n sel d reconnect b0 n2 sel2 hrm
            rcases hd with hd | hd
            · rcases List.mem_cons.mp hd with rfl | hmem
              · exact absurd rfl hid
              · exact ih n2 sel2 out sel' h (hi2.trans hi) (he2.trans he) (Or.inl hmem)
            · refine ih n2 sel2 out sel' h (hi2.trans hi) (he2.trans he) (Or.inr ?_)
              exact (hkeys id (fun hh => hid hh.symm)).mpr hd

/-- Claim C7: in every completed batch `Delete(ids, reconnect)`, each requested
id that is an import or a current export node is rejected individually and
stays in the network, while the other ids in the batch still proceed
(concretely: deleting `[import 1, export 3, plain 2]` on `boundaryNet` keeps 1
and 3 and removes 2); the rejection is per-id, never a failure of the whole
batch. -/
theorem C7_boundary_protected (registry : Registry) (fuel : Nat) (net : NodeNetwork)
    (selected node_ids : List NodeId) (reconnect : Bool)
    (out : NodeNetwork) (sel' : List NodeId)
    (h : delete_nodes_run registry fuel net selected node_ids reconnect = some (out, sel'))
    (id : NodeId) (hid : id ∈ node_ids)
    (hb : net.imports.contains id = true ∨ outputs_contain net id = true) :
    (getNode out id).isSome = true
    ∧ (delete_nodes_run testRegistry 100 boundaryNet [] [1, 3, 2] false).map
        (fun r => ((getNode r.1 1).isSome, (getNode r.1 3).isSome, (getNode r.1 2).isSome))
        = some (true, true, false) := by
  refine ⟨?_, by decide⟩
  rw [delete_nodes_run] at h
  cases hseed : delete_nodes_seed fuel net node_ids reconnect with
  | none => rw [hseed] at h; simp at h
  | some del =>
    rw [hseed] at h
    simp only [Option.some_bind] at h
    have hmem : id ∈ del := delete_nodes_seed_mem fuel net node_ids reconnect del hseed id hid
    exact run_fold_keep registry reconnect net.imports net.exports id
      (by rcases hb with hb | hb
          · exact Or.inl hb
          · exact Or.inr (by rw [outputs_contain] at hb; exact hb))
      del net selected out sel' h rfl rfl (Or.inl hmem)

/-- The surviving network of `Delete([1, 3, 2], reconnect = false)` on
`boundaryNet`: import 1 and export 3 kept (3's input reset to the detached
default), plain node 2 removed. -/
def boundaryNetAfter : NodeNetwork :=
  { nodes := [(1, { name := "TestNode", inputs := [] }),
              (3, { name := "TestNode", inputs := [.value 0 true] })],
    imports := [1], exports := [⟨3, 0⟩] }

/-- Witness for C7: the import node survives the batch on `boundaryNet`. -/
theorem C7_boundary_witness :
    (getNode boundaryNetAfter 1).isSome = true
    ∧ (delete_nodes_run testRegistry 100 boundaryNet [] [1, 3, 2] false).map
        (fun r => ((getNode r.1 1).isSome, (getNode r.1 3).isSome, (getNode r.1 2).isSome))
        = some (true, true, false) :=
  C7_boundary_protected testRegistry 100 boundaryNet [] [1, 3, 2] false
    boundaryNetAfter [] (by decide) 1 (by decide) (Or.inl (by decide))

/-! ### C5: shift spacing -/

theorem getNode_shift_node_by (net : NodeNetwork) (id j : NodeId) (s : Int) :
    getNode (shift_node_by net id s) j
      = (getNode net j).map (fun n =>
          if j = id then { n with position := (n.position.1 + s, n.position.2) } else n) := by
  rw [getNode, getNode, shift_node_by]
  show (List.find? _ (net.nodes.map _)).map _ = _
  induction net.nodes with
  | nil => simp
  | cons p l ih =>
    simp only [List.map_cons]
    by_cases hq : p.1 = id
    · rw [if_pos hq]
      by_cases hp : p.1 = j
      · rw [List.find?_cons_of_pos _ (by simpa using hp),
            List.find?_cons_of_pos _ (by simpa using hp)]
        simp only [Option.map_some']
        have hj : j = id := by rw [← hp, hq]
        rw [if_pos hj]
      · rw [List.find?_cons_of_neg _ (by simpa using hp),
            List.find?_cons_of_neg _ (by simpa using hp)]
        exact ih
    · rw [if_neg hq]
      by_cases hp : p.1 = j
      · rw [List.find?_cons_of_pos _ (by simpa using hp),
            List.find?_cons_of_pos _ (by simpa using hp)]
        simp only [Option.map_some']
        have hj : ¬ j = id := by rw [← hp]; exact hq
        rw [if_neg hj]
      · rw [List.find?_cons_of_neg _ (by simpa using hp),
            List.find?_cons_of_neg _ (by simpa using hp)]
        exact ih

theorem shift_walk_pos (links : NodeId → List NodeId) (s : Int) :
    ∀ (fuel : Nat) (stack : List NodeId) (net out : NodeNetwork) (visited : List NodeId),
    shift_walk links s fuel stack net = some (out, visited) →
    ∀ j, getNode out j = (getNode net j).map (fun n =>
      { n with position := (n.position.1 + s * (visited.count j : Int), n.position.2) }) := by
  intro fuel
  induction fuel with
  | zero =>
    intro stack net out visited h j
    cases stack with
    | nil =>
      rw [shift_walk] at h
      simp only [Option.some.injEq, Prod.mk.injEq] at h
      obtain ⟨rfl, rfl⟩ := h
      cases hg : getNode net j with
      | none => simp
      | some nj =>
        simp only [Option.map_some', List.count_nil, Nat.cast_zero, mul_zero, add_zero]
    | cons a rest => rw [shift_walk] at h; simp at h
  | succ n ih =>
    intro stack net out visited h j
    cases stack with
    | nil =>
      rw [shift_walk] at h
      simp only [Option.some.injEq, Prod.mk.injEq] at h
      obtain ⟨rfl, rfl⟩ := h
      cases hg : getNode net j with
      | none => simp
      | some nj =>
        simp only [Option.map_some', List.count_nil, Nat.cast_zero, mul_zero, add_zero]
    | cons a rest =>
      rw [shift_walk] at h
      cases hrec : shift_walk links s n ((links a).reverse ++ rest) (shift_node_by net a s) with
      | none => rw [hrec] at h; simp at h
      | some r =>
        rw [hrec] at h
        simp only [Option.map_some', Option.some.injEq, Prod.mk.injEq] at h
        obtain ⟨rfl, rfl⟩ := h
        have hih := ih ((links a).reverse ++ rest) (shift_node_by net a s) r.1 r.2 (by rw [hrec]) j
        rw [hih, getNode_shift_node_by]
        rw [Option.map_map]
        cases hg : getNode net j with
        | none => rfl
        | some nj =>
          simp only [Option.map_some', Function.comp]
          by_cases hj : j = a
          · rw [if_pos hj]
            subst hj
            simp only [List.count_cons_self, Option.some.injEq, DocumentNode.mk.injEq,
              Prod.mk.injEq, true_and, and_true]
            push_cast
            ring
          · rw [if_neg hj]
            rw [List.count_cons_of_ne hj]

theorem required_shift_nonneg (net : NodeNetwork) (l r : NodeId) :
    0 ≤ required_shift net l r := by
  rw [required_shift]
  cases getNode net l with
  | none => exact le_refl 0
  | some L =>
    cases getNode net r with
    | none => exact le_refl 0
    | some R =>
      dsimp only
      by_cases hlt : R.position.1 < L.position.1
      · rw [if_pos hlt]
      · rw [if_neg hlt]
        exact le_max_right _ _

theorem required_shift_spacing (net : NodeNetwork) (l r : NodeId) (L R : DocumentNode)
    (hL : getNode net l = some L) (hR : getNode net r = some R)
    (hge : L.position.1 ≤ R.position.1) :
    L.position.1 + 8 ≤ R.position.1 + required_shift net l r := by
  rw [required_shift, hL, hR]
  dsimp only
  by_cases hlt : R.position.1 < L.position.1
  · exact absurd hge (not_le.mpr hlt)
  · rw [if_neg hlt]
    have h1 : 8 - (R.position.1 - L.position.1)
        ≤ max (8 - (R.position.1 - L.position.1)) 0 := le_max_left _ _
    linarith

theorem shift_walk_cons_visited (links : NodeId → List NodeId) (s : Int) (fuel : Nat)
    (d : NodeId) (rest : List NodeId) (net out : NodeNetwork) (visited : List NodeId)
    (h : shift_walk links s fuel (d :: rest) net = some (out, visited)) :
    ∃ vs, visited = d :: vs := by
  cases fuel with
  | zero => rw [shift_walk] at h; simp at h
  | succ n =>
    rw [shift_walk] at h
    cases hrec : shift_walk links s n ((links d).reverse ++ rest) (shift_node_by net d s) with
    | none => rw [hrec] at h; simp at h
    | some r =>
      rw [hrec] at h
      simp only [Option.map_some', Option.some.injEq, Prod.mk.injEq] at h
      exact ⟨r.2, h.2.symm⟩

theorem shift_walk_mono (links : NodeId → List NodeId) (s : Int) (fuel : Nat)
    (stack : List NodeId) (net out : NodeNetwork) (visited : List NodeId)
    (h : shift_walk links s fuel stack net = some (out, visited)) (hs : 0 ≤ s)
    (j : NodeId) (n : DocumentNode) (hg : getNode net j = some n) :
    ∃ n', getNode out j = some n' ∧ n.position.1 ≤ n'.position.1
      ∧ (visited.count j = 0 → n' = n) := by
  have hp := shift_walk_pos links s fuel stack net out visited h j
  rw [hg] at hp
  simp only [Option.map_some'] at hp
  refine ⟨_, hp, ?_, ?_⟩
  · have : 0 ≤ s * (visited.count j : Int) :=
      mul_nonneg hs (Int.natCast_nonneg _)
    simp only
    linarith
  · intro hc
    simp only [hc, Nat.cast_zero, mul_zero, add_zero]

theorem shift_descendants_props (links : NodeId → List NodeId) (node_id : NodeId)
    (fuel : Nat) :
    ∀ (ds : List NodeId) (net out : NodeNetwork) (vs : List NodeId),
    shift_descendants links node_id fuel ds net = some (out, vs) →
    ∀ j n, getNode net j = some n →
    ∃ n', getNode out j = some n' ∧ n.position.1 ≤ n'.position.1
      ∧ (vs.count j = 0 → n' = n) := by
  intro ds
  induction ds with
  | nil =>
    intro net out vs h j n hg
    rw [shift_descendants] at h
    simp only [Option.some.injEq, Prod.mk.injEq] at h
    obtain ⟨rfl, rfl⟩ := h
    exact ⟨n, hg, le_refl _, fun _ => rfl⟩
  | cons d0 dsr ih =>
    intro net out vs h j n hg
    rw [shift_descendants] at h
    cases hw : shift_walk links (required_shift net node_id d0) fuel [d0] net with
    | none => rw [hw] at h; simp at h
    | some r =>
      rw [hw] at h
      simp only [Option.some_bind] at h
      cases hrec : shift_descendants links node_id fuel dsr r.1 with
      | none => rw [hrec] at h; simp at h
      | some r2 =>
        rw [hrec] at h
        simp only [Option.map_some', Option.some.injEq, Prod.mk.injEq] at h
        obtain ⟨rfl, rfl⟩ := h
        obtain ⟨n1, hg1, hle1, heq1⟩ := shift_walk_mono links _ fuel [d0] net r.1 r.2 (by
            rw [hw]) (required_shift_nonneg net node_id d0) j n hg
        obtain ⟨n2, hg2, hle2, heq2⟩ := ih r.1 r2.1 r2.2 (by rw [hrec]) j n1 hg1
        refine ⟨n2, hg2, le_trans hle1 hle2, ?_⟩
        intro hc
        rw [List.count_append] at hc
        have hc1 : r.2.count j = 0 := by omega
        have hc2 : r2.2.count j = 0 := by omega
        rw [heq2 hc2, heq1 hc1]

theorem shift_descendants_spacing (links : NodeId → List NodeId) (node_id : NodeId)
    (fuel : Nat) :
    ∀ (ds : List NodeId) (net out : NodeNetwork) (vs : List NodeId) (nn : DocumentNode),
    shift_descendants links node_id fuel ds net = some (out, vs) →
    vs.count node_id = 0 →
    getNode net node_id = some nn →
    ∀ d, d ∈ ds → ∀ dn, getNode net d = some dn → nn.position.1 ≤ dn.position.1 →
    ∃ dn', getNode out d = some dn' ∧ getNode out node_id = some nn
      ∧ nn.position.1 + 8 ≤ dn'.position.1 := by
  intro ds
  induction ds with
  | nil =>
    intro net out vs nn h hnv hnn d hd
    simp at hd
  | cons d0 dsr ih =>
    intro net out vs nn h hnv hnn d hd dn hdn hge
    rw [shift_descendants] at h
    cases hw : shift_walk links (required_shift net node_id d0) fuel [d0] net with
    | none => rw [hw] at h; simp at h
    | some r =>
      rw [hw] at h
      simp only [Option.some_bind] at h
      cases hrec : shift_descendants links node_id fuel dsr r.1 with
      | none => rw [hrec] at h; simp at h
      | some r2 =>
        rw [hrec] at h
        simp only [Option.map_some', Option.some.injEq, Prod.mk.injEq] at h
        obtain ⟨rfl, rfl⟩ := h
        rw [List.count_append] at hnv
        have hnv1 : r.2.count node_id = 0 := by omega
        have hnv2 : r2.2.count node_id = 0 := by omega
        have hs0 := required_shift_nonneg net node_id d0
        -- node_id's record is unchanged by the walk
        obtain ⟨nn1, hgnn1, _, heqnn1⟩ := shift_walk_mono links _ fuel [d0] net r.1 r.2
          (by rw [hw]) hs0 node_id nn hnn
        rw [heqnn1 hnv1] at hgnn1
        rcases List.mem_cons.mp hd with rfl | hmem
        · -- d is this descendant
          have hspace := required_shift_spacing net node_id d nn dn hnn hdn hge
          have hposd := shift_walk_pos links _ fuel [d] net r.1 r.2 (by rw [hw]) d
          rw [hdn] at hposd
          simp only [Option.map_some'] at hposd
          obtain ⟨vs1, hvs1⟩ := shift_walk_cons_visited links _ fuel d [] net r.1 r.2
            (by rw [hw])
          have hcount : 1 ≤ (r.2.count d : Int) := by
            rw [hvs1, List.count_cons_self]
            push_cast
            omega
          have hstep : dn.position.1 + required_shift net node_id d
              ≤ dn.position.1 + required_shift net node_id d * (r.2.count d : Int) := by
            have := mul_le_mul_of_nonneg_left hcount hs0
            linarith
          -- through the remaining descendants
          obtain ⟨dn', hgd', hled', _⟩ := shift_descendants_props links node_id fuel dsr
            r.1 r2.1 r2.2 (by rw [hrec]) d _ hposd
          obtain ⟨nnf, hgnnf, _, heqnnf⟩ := shift_descendants_props links node_id fuel dsr
            r.1 r2.1 r2.2 (by rw [hrec]) node_id nn hgnn1
          rw [heqnnf hnv2] at hgnnf
          refine ⟨dn', hgd', hgnnf, ?_⟩
          have : nn.position.1 + 8
              ≤ dn.position.1 + required_shift net node_id d * (r.2.count d : Int) := by
            linarith
          simp only at hled'
          linarith
        · -- d occurs later
          obtain ⟨dn1, hgd1, hled1, _⟩ := shift_walk_mono links _ fuel [d0] net r.1 r.2
            (by rw [hw]) hs0 d dn hdn
          exact ih r.1 r2.1 r2.2 nn (by rw [hrec]) hnv2 hgnn1 d hmem dn1 hgd1
            (le_trans hge hled1)

/-- `spacingNet` after `Shift(1)`: the downstream neighbour moved from x = 3 to
x = 8. -/
def spacingNetAfter : NodeNetwork :=
  { nodes := [(1, { name := "TestNode", position := (0, 0) }),
              (2, { name := "TestNode", inputs := [.node 1 0 false], position := (8, 0) })] }

/-- Claim C5 (amended): after a completed `Shift(nodeId)` whose phase-2 walks
never revisit `nodeId` and whose node has no upstream connection inputs, every
direct downstream neighbour that started *at or to the right of* `nodeId`
satisfies `D.x − nodeId.x ≥ 8` (neighbours strictly left of `nodeId` get a zero
shift and may stay closer — the unamended claim fails there); and the closure
walk moves each node right by the deficit once per visit, so a node reachable
along several paths moves by a multiple of the deficit (second conjunct, the
exact per-visit position formula). -/
theorem C5_amended_shift_spacing :
    (∀ (fuel : Nat) (net out : NodeNetwork) (node_id d : NodeId) (vs : List NodeId)
        (nn dn : DocumentNode),
      shift_node_run fuel net node_id = some (out, vs) →
      getNode net node_id = some nn →
      nn.inputs.filterMap NodeInput.asNode = [] →
      vs.count node_id = 0 →
      d ∈ outward_links net node_id →
      getNode net d = some dn →
      nn.position.1 ≤ dn.position.1 →
      ∃ dn', getNode out d = some dn' ∧ getNode out node_id = some nn
        ∧ nn.position.1 + 8 ≤ dn'.position.1)
    ∧ (∀ (links : NodeId → List NodeId) (s : Int) (fuel : Nat) (stack : List NodeId)
        (net out : NodeNetwork) (visited : List NodeId),
      shift_walk links s fuel stack net = some (out, visited) →
      ∀ j, getNode out j = (getNode net j).map (fun n =>
        { n with position := (n.position.1 + s * (visited.count j : Int), n.position.2) })) := by
  constructor
  · intro fuel net out node_id d vs nn dn h hnn hinp hnv hd hdn hge
    rw [shift_node_run] at h
    rw [hnn] at h
    simp only [Option.map_some', Option.getD_some] at h
    rw [hinp] at h
    simp only [List.foldl_nil] at h
    exact shift_descendants_spacing (outward_links net) node_id fuel
      (outward_links net node_id) net out vs nn h hnv hnn d hd dn hdn hge
  · exact shift_walk_pos

/-- Witness for C5: shifting node 1 of `spacingNet` pushes its right-hand
neighbour to the 8-unit spacing. -/
theorem C5_amended_witness :
    ∃ dn', getNode spacingNetAfter 2 = some dn'
      ∧ getNode spacingNetAfter 1 = some { name := "TestNode", position := (0, 0) }
      ∧ ({ name := "TestNode", position := (0, 0) } : DocumentNode).position.1 + 8
          ≤ dn'.position.1 :=
  C5_amended_shift_spacing.1 5 spacingNet spacingNetAfter 1 2 [2]
    { name := "TestNode", position := (0, 0) }
    { name := "TestNode", inputs := [.node 1 0 false], position := (3, 0) }
    (by decide) (by decide) (by decide) (by decide) (by decide) (by decide) (by decide)

/-! ### C2: the sole-dependent test -/

/-- The sibling-continuation trigger: node `b` has a node and its primary input
is a `NodeConnection` to `a`. -/
def prim_input_is (net : NodeNetwork) (b a : NodeId) : Prop :=
  ∃ dn oi lam, getNode net b = some dn ∧ dn.inputs.head? = some (NodeInput.node a oi lam)

/-- One step of the forward walk of the sole-dependent test, as the source
takes it: from `a` to each outward-link consumer that is neither an original
output nor in the delete-set, and — whenever some consumer (not an original
output) is already in the delete-set — to every node scheduled for deletion
whose primary input is `a` (the sibling continuation, which travels through
nodes being deleted). -/
inductive WalkStep (net : NodeNetwork) (delete_nodes node_ids : List NodeId) :
    NodeId → NodeId → Prop where
  | direct {a b : NodeId} (hmem : b ∈ outward_links net a)
      (hout : original_outputs_contain net b = false)
      (hnd : ¬ b ∈ delete_nodes) : WalkStep net delete_nodes node_ids a b
  | sibling {a b : NodeId} (c : NodeId) (hc : c ∈ outward_links net a)
      (hcout : original_outputs_contain net c = false)
      (hcd : c ∈ delete_nodes)
      (hb : b ∈ node_ids) (hprim : prim_input_is net b a) :
      WalkStep net delete_nodes node_ids a b

/-- A node with an original-output consumer: reaching it keeps the candidate
alive. -/
def walk_bad (net : NodeNetwork) (x : NodeId) : Prop :=
  ∃ d ∈ outward_links net x, original_outputs_contain net d = true

theorem sib_fold_spec (net : NodeNetwork) (current : NodeId) :
    ∀ (ids : List NodeId) (ps0 ps : List NodeId),
    ids.foldl
      (fun acc2 did =>
        acc2.bind (fun ps =>
          match getNode net did with
          | none => none
          | some dn =>
            match dn.inputs.head? with
            | some (.node nid _ _) => if nid = current then some (ps ++ [did]) else some ps
            | _ => some ps))
      (some ps0) = some ps →
    ∀ p, p ∈ ps ↔ (p ∈ ps0 ∨ (p ∈ ids ∧ prim_input_is net p current)) := by
  intro ids
  induction ids with
  | nil =>
    intro ps0 ps h p
    simp only [List.foldl, Option.some.injEq] at h
    subst h
    simp
  | cons did rest ih =>
    intro ps0 ps h p
    simp only [List.foldl, Option.some_bind] at h
    cases hg : getNode net did with
    | none =>
      simp only [hg] at h
      rw [foldl_option_none] at h
      simp at h
    | some dn =>
      simp only [hg] at h
      cases hh : dn.inputs.head? with
      | none =>
        simp only [hh] at h
        have hnp : ¬ prim_input_is net did current := by
          rintro ⟨dn', oi, lam, hg', hh'⟩
          rw [hg] at hg'
          injection hg' with hg''
          rw [← hg''] at hh'
          rw [hh] at hh'
          cases hh'
        rw [ih ps0 ps h p]
        simp only [List.mem_cons]
        constructor
        · rintro (hp | ⟨hmem, hprim⟩)
          · exact Or.inl hp
          · exact Or.inr ⟨Or.inr hmem, hprim⟩
        · rintro (hp | ⟨rfl | hmem, hprim⟩)
          · exact Or.inl hp
          · exact absurd hprim hnp
          · exact Or.inr ⟨hmem, hprim⟩
      | some inp =>
        cases inp with
        | node nid oi lam =>
          by_cases hn : nid = current
          · simp only [hh, if_pos hn] at h
            have hp : prim_input_is net did current := ⟨dn, oi, lam, hg, by rw [hh, hn]⟩
            rw [ih (ps0 ++ [did]) ps h p]
            simp only [List.mem_append, List.mem_singleton, List.mem_cons, List.not_mem_nil,
              or_false]
            constructor
            · rintro ((hm | rfl) | ⟨hmem, hprim⟩)
              · exact Or.inl hm
              · exact Or.inr ⟨Or.inl rfl, hp⟩
              · exact Or.inr ⟨Or.inr hmem, hprim⟩
            · rintro (hm | ⟨rfl | hmem, hprim⟩)
              · exact Or.inl (Or.inl hm)
              · exact Or.inl (Or.inr rfl)
              · exact Or.inr ⟨hmem, hprim⟩
          · simp only [hh, if_neg hn] at h
            have hnp : ¬ prim_input_is net did current := by
              rintro ⟨dn', oi', lam', hg', hh'⟩
              rw [hg] at hg'
              injection hg' with hg''
              rw [← hg''] at hh'
              rw [hh] at hh'
              injection hh' with hh''
              injection hh''
              -- nid = current contradiction
              exact hn (by assumption)
            rw [ih ps0 ps h p]
            simp only [List.mem_cons]
            constructor
            · rintro (hp | ⟨hmem, hprim⟩)
              · exact Or.inl hp
              · exact Or.inr ⟨Or.inr hmem, hprim⟩
            · rintro (hp | ⟨rfl | hmem, hprim⟩)
              · exact Or.inl hp
              · exact absurd hprim hnp
              · exact Or.inr ⟨hmem, hprim⟩
        | value tv e =>
          simp only [hh] at h
          have hnp : ¬ prim_input_is net did current := by
            rintro ⟨dn', oi, lam, hg', hh'⟩
            rw [hg] at hg'
            injection hg' with hg''
            rw [← hg''] at hh'
            rw [hh] at hh'
            cases hh'
          rw [ih ps0 ps h p]
          simp only [List.mem_cons]
          constructor
          · rintro (hp | ⟨hmem, hprim⟩)
            · exact Or.inl hp
            · exact Or.inr ⟨Or.inr hmem, hprim⟩
          · rintro (hp | ⟨rfl | hmem, hprim⟩)
            · exact Or.inl hp
            · exact absurd hprim hnp
            · exact Or.inr ⟨hmem, hprim⟩
        | network =>
          simp only [hh] at h
          have hnp : ¬ prim_input_is net did current := by
            rintro ⟨dn', oi, lam, hg', hh'⟩
            rw [hg] at hg'
            injection hg' with hg''
            rw [← hg''] at hh'
            rw [hh] at hh'
            cases hh'
          rw [ih ps0 ps h p]
          simp only [List.mem_cons]
          constructor
          · rintro (hp | ⟨hmem, hprim⟩)
            · exact Or.inl hp
            · exact Or.inr ⟨Or.inr hmem, hprim⟩
          · rintro (hp | ⟨rfl | hmem, hprim⟩)
            · exact Or.inl hp
            · exact absurd hprim hnp
            · exact Or.inr ⟨hmem, hprim⟩

theorem step_fold_spec (net : NodeNetwork) (delete_nodes node_ids : List NodeId)
    (current : NodeId) :
    ∀ (dsl : List NodeId) (saw0 : Bool) (ps0 : List NodeId) (saw : Bool) (ps : List NodeId),
    dsl.foldl
      (fun acc d =>
        acc.bind (fun sp =>
          if original_outputs_contain net d then some (true, sp.2)
          else if delete_nodes.contains d then
            (node_ids.foldl
              (fun acc2 did =>
                acc2.bind (fun ps =>
                  match getNode net did with
                  | none => none
                  | some dn =>
                    match dn.inputs.head? with
                    | some (.node nid _ _) =>
                      if nid = current then some (ps ++ [did]) else some ps
                    | _ => some ps))
              (some sp.2)).map (fun ps2 => (sp.1, ps2))
          else some (sp.1, sp.2 ++ [d])))
      (some (saw0, ps0)) = some (saw, ps) →
    (saw = (saw0 || dsl.any (fun d => original_outputs_contain net d)))
    ∧ (∀ p, p ∈ ps ↔ (p ∈ ps0 ∨ ∃ d ∈ dsl, original_outputs_contain net d = false ∧
        ((¬ d ∈ delete_nodes ∧ p = d)
          ∨ (d ∈ delete_nodes ∧ p ∈ node_ids ∧ prim_input_is net p current)))) := by
  intro dsl
  induction dsl with
  | nil =>
    intro saw0 ps0 saw ps h
    simp only [List.foldl, Option.some.injEq, Prod.mk.injEq] at h
    obtain ⟨rfl, rfl⟩ := h
    simp
  | cons d rest ih =>
    intro saw0 ps0 saw ps h
    simp only [List.foldl, Option.some_bind] at h
    by_cases ho : original_outputs_contain net d = true
    · rw [if_pos ho] at h
      obtain ⟨hsaw, hmem⟩ := ih true ps0 saw ps h
      constructor
      · rw [hsaw, List.any_cons, ho]
        simp
      · intro p
        rw [hmem p]
        constructor
        · rintro (hp | ⟨d', hd', hcond⟩)
          · exact Or.inl hp
          · exact Or.inr ⟨d', List.mem_cons_of_mem d hd', hcond⟩
        · rintro (hp | ⟨d', hd', hfalse, hcond⟩)
          · exact Or.inl hp
          · rcases List.mem_cons.mp hd' with rfl | hd''
            · rw [ho] at hfalse; cases hfalse
            · exact Or.inr ⟨d', hd'', hfalse, hcond⟩
    · rw [if_neg ho] at h
      have ho2 : original_outputs_contain net d = false := by
        simpa using ho
      by_cases hd : delete_nodes.contains d = true
      · rw [if_pos hd] at h
        have hdmem : d ∈ delete_nodes := List.elem_iff.mp hd
        cases hin : node_ids.foldl
            (fun acc2 did =>
              acc2.bind (fun ps =>
                match getNode net did with
                | none => none
                | some dn =>
                  match dn.inputs.head? with
                  | some (.node nid _ _) =>
                    if nid = current then some (ps ++ [did]) else some ps
                  | _ => some ps))
            (some ps0) with
        | none =>
          rw [hin] at h
          simp only [Option.map_none'] at h
          rw [foldl_option_none] at h
          simp at h
        | some ps1 =>
          rw [hin] at h
          simp only [Option.map_some'] at h
          obtain ⟨hsaw, hmem⟩ := ih saw0 ps1 saw ps h
          have hsib := sib_fold_spec net current node_ids ps0 ps1 hin
          constructor
          · rw [hsaw, List.any_cons, ho2]
            simp
          · intro p
            rw [hmem p]
            constructor
            · rintro (hp | ⟨d', hd', hcond⟩)
              · rcases (hsib p).mp hp with hp0 | ⟨hpn, hprim⟩
                · exact Or.inl hp0
                · exact Or.inr ⟨d, List.mem_cons_self d rest, ho2,
                    Or.inr ⟨hdmem, hpn, hprim⟩⟩
              · exact Or.inr ⟨d', List.mem_cons_of_mem d hd', hcond⟩
            · rintro (hp | ⟨d', hd', hfalse, hcond⟩)
              · exact Or.inl ((hsib p).mpr (Or.inl hp))
              · rcases List.mem_cons.mp hd' with rfl | hd''
                · rcases hcond with ⟨hnd, rfl⟩ | ⟨_, hpn, hprim⟩
                  · exact absurd hdmem hnd
                  · exact Or.inl ((hsib p).mpr (Or.inr ⟨hpn, hprim⟩))
                · exact Or.inr ⟨d', hd'', hfalse, hcond⟩
      · rw [if_neg hd] at h
        have hdnmem : ¬ d ∈ delete_nodes := fun hm => hd (List.elem_iff.mpr hm)
        obtain ⟨hsaw, hmem⟩ := ih saw0 (ps0 ++ [d]) saw ps h
        constructor
        · rw [hsaw, List.any_cons, ho2]
          simp
        · intro p
          rw [hmem p]
          simp only [List.mem_append, List.mem_singleton]
          constructor
          · rintro ((hp | hpd) | ⟨d', hd', hcond⟩)
            · exact Or.inl hp
            · exact Or.inr ⟨d, List.mem_cons_self d rest, ho2, Or.inl ⟨hdnmem, hpd⟩⟩
            · exact Or.inr ⟨d', List.mem_cons_of_mem d hd', hcond⟩
          · rintro (hp | ⟨d', hd', hfalse, hcond⟩)
            · exact Or.inl (Or.inl hp)
            · rcases List.mem_cons.mp hd' with rfl | hd''
              · rcases hcond with ⟨_, rfl⟩ | ⟨hdm, _, _⟩
                · exact Or.inl (Or.inr rfl)
                · exact absurd hdm hdnmem
              · exact Or.inr ⟨d', hd'', hfalse, hcond⟩

theorem walk_step_spec (net : NodeNetwork) (delete_nodes node_ids : List NodeId)
    (current : NodeId) (saw : Bool) (pushes : List NodeId)
    (h : walk_step net delete_nodes node_ids current = some (saw, pushes)) :
    (saw = true ↔ walk_bad net current)
    ∧ (∀ p, p ∈ pushes ↔ WalkStep net delete_nodes node_ids current p) := by
  rw [walk_step] at h
  obtain ⟨hsaw, hmem⟩ := step_fold_spec net delete_nodes node_ids current
    (outward_links net current) false [] saw pushes h
  constructor
  · rw [hsaw]
    simp only [Bool.false_or]
    rw [List.any_eq_true]
    rfl
  · intro p
    rw [hmem p]
    simp only [List.not_mem_nil, false_or]
    constructor
    · rintro ⟨d, hd, hfalse, hcond⟩
      rcases hcond with ⟨hnd, rfl⟩ | ⟨hdm, hpn, hprim⟩
      · exact WalkStep.direct hd hfalse hnd
      · exact WalkStep.sibling d hd hfalse hdm hpn hprim
    · intro hws
      cases hws with
      | direct hmem2 hout2 hnd2 => exact ⟨p, hmem2, hout2, Or.inl ⟨hnd2, rfl⟩⟩
      | sibling c hc hcout hcd hb hprim => exact ⟨c, hc, hcout, Or.inr ⟨hcd, hb, hprim⟩⟩

theorem sole_walk_spec (net : NodeNetwork) (delete_nodes node_ids : List NodeId) :
    ∀ (fuel : Nat) (stack : List NodeId) (c b : Bool),
    sole_walk net delete_nodes node_ids fuel stack c = some b →
    (b = false ↔ (c = false ∨ ∃ u ∈ stack, ∃ x,
      Relation.ReflTransGen (WalkStep net delete_nodes node_ids) u x ∧ walk_bad net x)) := by
  intro fuel
  induction fuel with
  | zero =>
    intro stack c b h
    cases stack with
    | nil =>
      rw [sole_walk] at h
      injection h with h'
      subst h'
      simp
    | cons a rest => rw [sole_walk] at h; simp at h
  | succ n ih =>
    intro stack c b h
    cases stack with
    | nil =>
      rw [sole_walk] at h
      injection h with h'
      subst h'
      simp
    | cons current rest =>
      rw [sole_walk] at h
      cases hws : walk_step net delete_nodes node_ids current with
      | none => rw [hws] at h; simp at h
      | some sp =>
        obtain ⟨saw, pushes⟩ := sp
        rw [hws] at h
        have hih := ih (pushes.reverse ++ rest) (c && !saw) b h
        obtain ⟨hsawspec, hmemspec⟩ :=
          walk_step_spec net delete_nodes node_ids current saw pushes hws
        rw [hih]
        constructor
        · rintro (hcf | ⟨u, hu, x, hreach, hbad⟩)
          · cases hc : c with
            | false => exact Or.inl rfl
            | true =>
              rw [hc] at hcf
              simp only [Bool.true_and] at hcf
              have hsaw2 : saw = true := by
                cases saw
                · simp at hcf
                · rfl
              exact Or.inr ⟨current, List.mem_cons_self _ _, current,
                Relation.ReflTransGen.refl, hsawspec.mp hsaw2⟩
          · rcases List.mem_append.mp hu with hup | hur
            · have hp : u ∈ pushes := List.mem_reverse.mp hup
              exact Or.inr ⟨current, List.mem_cons_self _ _, x,
                Relation.ReflTransGen.head ((hmemspec u).mp hp) hreach, hbad⟩
            · exact Or.inr ⟨u, List.mem_cons_of_mem _ hur, x, hreach, hbad⟩
        · rintro (hcf | ⟨u, hu, x, hreach, hbad⟩)
          · exact Or.inl (by rw [hcf]; rfl)
          · rcases List.mem_cons.mp hu with rfl | hur
            · rcases Relation.ReflTransGen.cases_head hreach with rfl | ⟨y, hstep, hreach2⟩
              · have hsaw2 : saw = true := hsawspec.mpr hbad
                exact Or.inl (by rw [hsaw2]; simp)
              · exact Or.inr ⟨y, List.mem_append.mpr
                  (Or.inl (List.mem_reverse.mpr ((hmemspec y).mpr hstep))), x, hreach2, hbad⟩
            · exact Or.inr ⟨u, List.mem_append.mpr (Or.inr hur), x, hreach, hbad⟩

/-- Claim C2 (amended): a candidate node `u` tested by the sole-dependent walk
is marked deletable exactly when no forward walk from `u` reaches a node with
an original-output consumer — where the walk's steps are `WalkStep`: through
surviving consumers *and*, via the sibling continuation, through nodes being
deleted whose primary input is the current node.  (The unamended claim's
"through surviving nodes" is refuted by `C2_counterexample`: a path through the
deleted node itself keeps the candidate alive.) -/
theorem C2_amended_sole_dependent (net : NodeNetwork) (delete_nodes node_ids : List NodeId)
    (fuel : Nat) (u : NodeId) (b : Bool)
    (h : sole_walk net delete_nodes node_ids fuel [u] true = some b) :
    (b = false ↔ ∃ x, Relation.ReflTransGen (WalkStep net delete_nodes node_ids) u x
      ∧ walk_bad net x) := by
  rw [sole_walk_spec net delete_nodes node_ids fuel [u] true b h]
  simp

/-- Witness for C2: on `c2Net` the kept candidate 1 indeed has a walk to a node
with an exported consumer. -/
theorem C2_amended_witness :
    ∃ x, Relation.ReflTransGen (WalkStep c2Net [3, 2] [3]) 1 x ∧ walk_bad c2Net x :=
  (C2_amended_sole_dependent c2Net [3, 2] [3] 100 1 false (by decide)).mp rfl

end NodeGraph
